import Mathlib

/-!
Verification of the kinematic core of the cross-hinge (antiparallelogram four-bar)
simulator: the geometry kernel (`FourBarLinkageCalculator`), the incremental
four-bar solver and range-of-motion finder (`DesignerUI`), and the three-position
mechanism synthesizer (`MechanismCalculator`).

Real arithmetic stands in for IEEE floating point; JavaScript's total division
is mirrored by Lean's convention `x / 0 = 0` (divergences caused by `NaN`
propagation are noted at the relevant theorems).
-/

namespace FourBar

open Real

/-- A 2D point `{x, y}` in design-space units. -/
@[ext] structure Point where
  x : ℝ
  y : ℝ

noncomputable section

open scoped Classical

/-- `FourBarLinkageCalculator.distance`: Euclidean distance
`Math.sqrt((p2.x - p1.x) ** 2 + (p2.y - p1.y) ** 2)`. -/
def distance (p1 p2 : Point) : ℝ :=
  Real.sqrt ((p2.x - p1.x) ^ 2 + (p2.y - p1.y) ^ 2)

/-- `FourBarLinkageCalculator.orientation`: orientation of the ordered triple
`(p, q, r)`; `0` collinear (`|val| < 1e-10`), `1` clockwise (`val > 0`),
`2` counterclockwise. -/
def orientation (p q r : Point) : ℤ :=
  let val := (q.y - p.y) * (r.x - q.x) - (q.x - p.x) * (r.y - q.y)
  if |val| < 1e-10 then 0 else if val > 0 then 1 else 2

/-- The `onSegment` helper inside `segmentsIntersect`: `q` lies in the bounding
box of `p` and `r`. -/
def onSegment (p q r : Point) : Prop :=
  q.x ≤ max p.x r.x ∧ min p.x r.x ≤ q.x ∧ q.y ≤ max p.y r.y ∧ min p.y r.y ≤ q.y

/-- `FourBarLinkageCalculator.segmentsIntersect`: classic orientation test with
the collinear special cases (the early-`return` chain written as a disjunction). -/
def segmentsIntersect (p1 q1 p2 q2 : Point) : Prop :=
  let o1 := orientation p1 q1 p2
  let o2 := orientation p1 q1 q2
  let o3 := orientation p2 q2 p1
  let o4 := orientation p2 q2 q1
  (o1 ≠ o2 ∧ o3 ≠ o4) ∨
  (o1 = 0 ∧ onSegment p1 p2 q1) ∨
  (o2 = 0 ∧ onSegment p1 q2 q1) ∨
  (o3 = 0 ∧ onSegment p2 p1 q2) ∨
  (o4 = 0 ∧ onSegment p2 q1 q2)

/-- `FourBarLinkageCalculator.circleCircleIntersection`: `null` (here `none`)
when the circles are separate, contained, or concentric with unequal radii;
one point when tangent; two points otherwise. -/
def circleCircleIntersection (p1 : Point) (r1 : ℝ) (p2 : Point) (r2 : ℝ) :
    Option (List Point) :=
  let d := Real.sqrt ((p2.x - p1.x) ^ 2 + (p2.y - p1.y) ^ 2)
  if d > r1 + r2 ∨ d < |r1 - r2| ∨ (d = 0 ∧ r1 ≠ r2) then
    none
  else
    let a := (r1 * r1 - r2 * r2 + d * d) / (2 * d)
    let h := Real.sqrt (max 0 (r1 * r1 - a * a))
    let x2 := p1.x + a * (p2.x - p1.x) / d
    let y2 := p1.y + a * (p2.y - p1.y) / d
    let i1 : Point := ⟨x2 + h * (p2.y - p1.y) / d, y2 - h * (p2.x - p1.x) / d⟩
    let i2 : Point := ⟨x2 - h * (p2.y - p1.y) / d, y2 + h * (p2.x - p1.x) / d⟩
    if d = r1 + r2 ∨ d = |r1 - r2| then some [i1] else some [i1, i2]

/-- JavaScript's `Math.atan2(y, x)`, as the argument of the complex number
`x + y*i`. -/
def atan2 (y x : ℝ) : ℝ := Complex.arg ⟨x, y⟩

/-- One full mechanism pose `{A, B, C, D}` (the four pivots). -/
@[ext] structure MechState where
  A : Point
  B : Point
  C : Point
  D : Point

/-- The animatable range `{min, max}` in radians. -/
@[ext] structure AngleLimits where
  min : ℝ
  max : ℝ

/-- The `DesignerUI` fields read or written by the solver and the range finder:
`mechanism.pivots`, `initialInputAngle`, `initialOrientations` (`adb`, `cda`),
`lastValidC`, and the `hingeUnlocked` flag. -/
@[ext] structure DState where
  pivots : MechState
  initialInputAngle : Option ℝ
  initialOrientations : Option (ℤ × ℤ)
  lastValidC : Option Point
  hingeUnlocked : Bool

/-- `Array.prototype.filter` on the candidate list. -/
def pointFilter (P : Point → Prop) : List Point → List Point
  | [] => []
  | p :: ps => if P p then p :: pointFilter P ps else pointFilter P ps

/-- `validSolutions.sort(by distance to ref)[0]`: the stable sort's head is the
first element of minimal distance to `ref` (strict improvement only). -/
def chooseClosest (ref : Point) : List Point → Option Point
  | [] => none
  | p :: ps =>
    some (ps.foldl (fun best q => if distance q ref < distance best ref then q else best) p)

/-- The `validSolutions` filter predicate of
`DesignerUI.calculateAnimatedStateForAngle`: unlocked accepts every geometric
solution; locked requires the crossed configuration and (when reference
orientations are stored) matching orientation signs for `(A, D, B')` and
`(p, A, D)`. -/
def gate (st : DState) (A newB D p : Point) : Prop :=
  if st.hingeUnlocked then True
  else
    segmentsIntersect A newB p D ∧
    (match st.initialOrientations with
     | some (adb, cda) => orientation A D newB = adb ∧ orientation p A D = cda
     | none => True)

/-- The local `const newB` of `DesignerUI.calculateAnimatedStateForAngle`: the
driven joint placed at angle `newAngle` on the circle of radius `l_ab`
around `A`. -/
def newBpoint (A : Point) (l_ab newAngle : ℝ) : Point :=
  ⟨A.x + l_ab * Real.cos newAngle, A.y + l_ab * Real.sin newAngle⟩

/-- The `chosenSolution` selection of
`DesignerUI.calculateAnimatedStateForAngle`: the single survivor when there is
only one, otherwise the survivor closest to `lastValidC` (or to the initial `C`
when no `lastValidC` reference exists). -/
def selectFrom (st : DState) (C : Point) (validSolutions : List Point) : Option Point :=
  if validSolutions.length = 1 then validSolutions.head?
  else
    match st.lastValidC with
    | some lastValidC => chooseClosest lastValidC validSolutions
    | none => chooseClosest C validSolutions

/-- `DesignerUI.calculateAnimatedStateForAngle(angleOffset)`: returns the new
pose (or `none`) together with the updated object state (`this.lastValidC` is
assigned on success). -/
def calculateAnimatedStateForAngle (st : DState) (angleOffset : ℝ) :
    Option MechState × DState :=
  match st.initialInputAngle with
  | none => (none, st)
  | some initialInputAngle =>
    let A := st.pivots.A
    let B := st.pivots.B
    let C := st.pivots.C
    let D := st.pivots.D
    let l_ab := distance A B
    let l_cd := distance C D
    let l_bc := distance B C
    if l_ab < 1 ∨ l_cd < 1 ∨ l_bc < 1 then (none, st)
    else
      let newAngle := initialInputAngle + angleOffset
      let newB := newBpoint A l_ab newAngle
      match circleCircleIntersection newB l_bc D l_cd with
      | none => (none, st)
      | some intersections =>
        if intersections.length = 0 then (none, st)
        else
          let validSolutions := pointFilter (gate st A newB D) intersections
          if validSolutions.length = 0 then (none, st)
          else
            let chosenSolution := selectFrom st C validSolutions
            match chosenSolution with
            | some chosen =>
              (some ⟨A, newB, chosen, D⟩, { st with lastValidC := some chosen })
            | none => (none, st)

/-- `DesignerUI.storeInitialOrientations`: the pair
`(orientation(A, D, B), orientation(C, A, D))`. -/
def storeInitialOrientations (ms : MechState) : ℤ × ℤ :=
  (orientation ms.A ms.D ms.B, orientation ms.C ms.A ms.D)

/-- The body of `findLimit`'s `for` loop in `DesignerUI.calculateAngleLimits`,
with the iteration count as fuel (the source caps it at 100).  Each probe calls
the solver on the current object state, so `lastValidC` threads through. -/
def findLimitLoop : ℕ → DState → ℝ → ℝ → ℝ → ℝ → ℝ × DState
  | 0, st, _direction, _low, _high, best => (best, st)
  | fuel + 1, st, direction, low, high, best =>
    let mid := low + (high - low) / 2
    if |mid - best| < 0.0001 then (best, st)
    else
      let probe := calculateAnimatedStateForAngle st mid
      match probe.1 with
      | some _ =>
        let best' := mid
        let low' := if direction > 0 then mid else low
        let high' := if direction > 0 then high else mid
        if |high' - low'| < 0.0001 then (best', probe.2)
        else findLimitLoop fuel probe.2 direction low' high' best'
      | none =>
        let low' := if direction > 0 then low else mid
        let high' := if direction > 0 then mid else high
        if |high' - low'| < 0.0001 then (best, probe.2)
        else findLimitLoop fuel probe.2 direction low' high' best

/-- `findLimit(direction, startAngle)` inside `DesignerUI.calculateAngleLimits`:
binary search from `startAngle` with bracket `2π` (or `4π` when the hinge is
unlocked). -/
def findLimit (st : DState) (direction startAngle : ℝ) : ℝ × DState :=
  let high :=
    if st.hingeUnlocked then startAngle + π * 4 * direction
    else startAngle + π * 2 * direction
  findLimitLoop 100 st direction startAngle high startAngle

/-- `DesignerUI.calculateAngleLimits()`: `min` is hardcoded to `0`; `max` is
whichever of the two directional search results has the larger absolute value.
Returns the limits together with the final object state. -/
def calculateAngleLimits (st : DState) : AngleLimits × DState :=
  let minAngle : ℝ := 0
  let rPos := findLimit st 1 0
  let maxPositive := rPos.1
  let rNeg := findLimit rPos.2 (-1) 0
  let maxNegative := rNeg.1
  let maxAngle := if |maxPositive| > |maxNegative| then maxPositive else maxNegative
  (⟨minAngle, maxAngle⟩, rNeg.2)

/-- One lid pose for synthesis: `{center, rotation}` with rotation in degrees. -/
structure LidPose where
  center : Point
  rotation : ℝ

/-- A line segment; the JS objects use the field name `end`, a reserved word in
Lean, rendered here as `stop`. -/
structure Seg where
  start : Point
  stop : Point

/-- A connection line between consecutive transformed positions, carrying its
midpoint as in `MechanismCalculator.createConnectionLines`. -/
structure ConnLine where
  start : Point
  stop : Point
  midpoint : Point

/-- Link lengths of the synthesized mechanism
(`MechanismCalculator.calculateLinkLengths`). -/
structure LinkLengths where
  inputLink : ℝ
  couplerLink : ℝ
  outputLink : ℝ
  groundLink : ℝ

/-- The result of `MechanismCalculator.validateMechanism`. -/
structure Validation where
  isValid : Bool
  errors : List String
  warnings : List String

/-- The result object of `MechanismCalculator.calculateMechanism` (the
render-only intermediates `connectionLines` and `perpendiculars` are omitted). -/
structure SynthResult where
  pivotLeft : Point
  pivotRight : Point
  validation : Validation
  couplerLength : ℝ
  linkLengths : LinkLengths

/-- `MechanismCalculator.transformPoint`: rotate a local point by `rotation`
degrees and translate it to `center`. -/
def transformPoint (point center : Point) (rotation : ℝ) : Point :=
  let rad := rotation * π / 180
  ⟨center.x + (point.x * Real.cos rad - point.y * Real.sin rad),
   center.y + (point.x * Real.sin rad + point.y * Real.cos rad)⟩

/-- `MechanismCalculator.calculateMidpoint`. -/
def calculateMidpoint (p1 p2 : Point) : Point :=
  ⟨(p1.x + p2.x) / 2, (p1.y + p2.y) / 2⟩

/-- A connection line of `MechanismCalculator.createConnectionLines`. -/
def mkConnLine (s e : Point) : ConnLine :=
  ⟨s, e, calculateMidpoint s e⟩

/-- `MechanismCalculator.createPerpendicular`: the perpendicular bisector
through the midpoint, extended 1000 units both ways along the normalized
90°-rotated chord direction. -/
def createPerpendicular (line : ConnLine) : Seg :=
  let dx := line.stop.x - line.start.x
  let dy := line.stop.y - line.start.y
  let perpDx := -dy
  let perpDy := dx
  let length := Real.sqrt (perpDx * perpDx + perpDy * perpDy)
  let unitX := perpDx / length
  let unitY := perpDy / length
  ⟨⟨line.midpoint.x - unitX * 1000, line.midpoint.y - unitY * 1000⟩,
   ⟨line.midpoint.x + unitX * 1000, line.midpoint.y + unitY * 1000⟩⟩

/-- `MechanismCalculator.findLineIntersection`: two-line determinant formula;
`none` when `|denom| < 1e-10` (parallel lines). -/
def findLineIntersection (line1 line2 : Seg) : Option Point :=
  let x1 := line1.start.x
  let y1 := line1.start.y
  let x2 := line1.stop.x
  let y2 := line1.stop.y
  let x3 := line2.start.x
  let y3 := line2.start.y
  let x4 := line2.stop.x
  let y4 := line2.stop.y
  let denom := (x1 - x2) * (y3 - y4) - (y1 - y2) * (x3 - x4)
  if |denom| < 1e-10 then none
  else
    let t := ((x1 - x3) * (y3 - y4) - (y1 - y3) * (x3 - x4)) / denom
    some ⟨x1 + t * (x2 - x1), y1 + t * (y2 - y1)⟩

/-- `MechanismCalculator.calculateLinkLengths` (uses the first position). -/
def calculateLinkLengths (left right A1 B1 : Point) (couplerLength : ℝ) :
    LinkLengths :=
  ⟨distance left A1, couplerLength, distance B1 right, distance left right⟩

/-- The per-position consistency warnings inside
`MechanismCalculator.validateMechanism` (tolerance `0.1`). -/
def positionWarnings (left right : Point) (lengths : LinkLengths)
    (pA pB : Point) (idx : ℕ) : List String :=
  (if |distance left pA - lengths.inputLink| > 0.1 then
    [s!"Position {idx}: Input link length inconsistent"] else []) ++
  (if |distance right pB - lengths.outputLink| > 0.1 then
    [s!"Position {idx}: Output link length inconsistent"] else [])

/-- `MechanismCalculator.validateMechanism`: hard error when a pivot is missing,
otherwise valid with (possibly) warnings. -/
def validateMechanism (pivotLeft pivotRight : Option Point)
    (A1 A2 A3 B1 B2 B3 : Point) (couplerLength : ℝ) : Validation :=
  match pivotLeft, pivotRight with
  | some left, some right =>
    let lengths := calculateLinkLengths left right A1 B1 couplerLength
    { isValid := true
      errors := []
      warnings :=
        positionWarnings left right lengths A1 B1 1 ++
        positionWarnings left right lengths A2 B2 2 ++
        positionWarnings left right lengths A3 B3 3 }
  | _, _ =>
    { isValid := false
      errors := ["Could not find pivot points - perpendicular lines may be parallel"]
      warnings := [] }

/-- `MechanismCalculator.calculateMechanism` for three set lid poses and two set
coupler points (the length-3 and non-null guards are enforced by the types).
When a pivot is `null`, building the returned object dereferences it inside
`calculateLinkLengths` and throws a `TypeError`; that abnormal exit is modelled
as `none`. -/
def calculateMechanism (p1 p2 p3 : LidPose) (cpA cpB : Point) :
    Option SynthResult :=
  let A1 := transformPoint cpA p1.center p1.rotation
  let A2 := transformPoint cpA p2.center p2.rotation
  let A3 := transformPoint cpA p3.center p3.rotation
  let B1 := transformPoint cpB p1.center p1.rotation
  let B2 := transformPoint cpB p2.center p2.rotation
  let B3 := transformPoint cpB p3.center p3.rotation
  let pivotA := findLineIntersection
    (createPerpendicular (mkConnLine A1 A2)) (createPerpendicular (mkConnLine A2 A3))
  let pivotB := findLineIntersection
    (createPerpendicular (mkConnLine B1 B2)) (createPerpendicular (mkConnLine B2 B3))
  let couplerLength := distance cpA cpB
  let validation := validateMechanism pivotA pivotB A1 A2 A3 B1 B2 B3 couplerLength
  match pivotA, pivotB with
  | some left, some right =>
    some { pivotLeft := left
           pivotRight := right
           validation := validation
           couplerLength := couplerLength
           linkLengths := calculateLinkLengths left right A1 B1 couplerLength }
  | _, _ => none

end

/-! ### Helper lemmas -/

lemma sqrt_eq_of_sq {x s : ℝ} (hs : 0 ≤ s) (h : s ^ 2 = x) : Real.sqrt x = s := by
  rw [← h, Real.sqrt_sq hs]

lemma distance_eq (p1 p2 : Point) :
    distance p1 p2 = Real.sqrt ((p2.x - p1.x) ^ 2 + (p2.y - p1.y) ^ 2) := rfl

lemma distance_nonneg (p1 p2 : Point) : 0 ≤ distance p1 p2 :=
  Real.sqrt_nonneg _

lemma distance_sq (p1 p2 : Point) :
    distance p1 p2 ^ 2 = (p2.x - p1.x) ^ 2 + (p2.y - p1.y) ^ 2 :=
  Real.sq_sqrt (by positivity)

lemma distance_self (p : Point) : distance p p = 0 := by
  simp [distance_eq]

lemma distance_eq_zero_iff {p1 p2 : Point} : distance p1 p2 = 0 ↔ p1 = p2 := by
  rw [distance_eq, Real.sqrt_eq_zero (by positivity)]
  constructor
  · intro h
    have hx : (p2.x - p1.x) ^ 2 = 0 := by nlinarith [sq_nonneg (p2.x - p1.x), sq_nonneg (p2.y - p1.y)]
    have hy : (p2.y - p1.y) ^ 2 = 0 := by nlinarith [sq_nonneg (p2.x - p1.x), sq_nonneg (p2.y - p1.y)]
    have hx' : p2.x = p1.x := by nlinarith [sq_nonneg (p2.x - p1.x)]
    have hy' : p2.y = p1.y := by nlinarith [sq_nonneg (p2.y - p1.y)]
    ext <;> simp [hx', hy']
  · rintro rfl
    simp

lemma distance_pos_of_ne {p1 p2 : Point} (h : p1 ≠ p2) : 0 < distance p1 p2 :=
  lt_of_le_of_ne (distance_nonneg _ _) fun h0 => h (distance_eq_zero_iff.mp h0.symm)

/-! ### C4: circle-circle intersection counts -/

/-- C4: for nonnegative radii, `circleCircleIntersection` returns exactly two
points when `|r1 - r2| < d < r1 + r2`, exactly one point at tangency
(`d = r1 + r2` or `d = |r1 - r2|`), and the failure value `none` otherwise. -/
theorem C4_circle_intersection_counts (c1 : Point) (r1 : ℝ) (c2 : Point) (r2 : ℝ)
    (h1 : 0 ≤ r1) (h2 : 0 ≤ r2) :
    ((|r1 - r2| < distance c1 c2 ∧ distance c1 c2 < r1 + r2) →
      ∃ L, circleCircleIntersection c1 r1 c2 r2 = some L ∧ L.length = 2) ∧
    ((distance c1 c2 = r1 + r2 ∨ distance c1 c2 = |r1 - r2|) →
      ∃ L, circleCircleIntersection c1 r1 c2 r2 = some L ∧ L.length = 1) ∧
    ((r1 + r2 < distance c1 c2 ∨ distance c1 c2 < |r1 - r2|) →
      circleCircleIntersection c1 r1 c2 r2 = none) := by
  have habs : |r1 - r2| ≤ r1 + r2 := by
    rw [abs_sub_le_iff]; constructor <;> linarith
  have hd0 : 0 ≤ |r1 - r2| := abs_nonneg _
  unfold circleCircleIntersection
  rw [← distance_eq]
  refine ⟨?_, ?_, ?_⟩
  · rintro ⟨hlo, hhi⟩
    rw [if_neg, if_neg]
    · exact ⟨_, rfl, rfl⟩
    · push_neg
      exact ⟨by linarith, by linarith⟩
    · push_neg
      refine ⟨by linarith, by linarith, ?_⟩
      intro hd
      exact absurd (hd ▸ hlo) (not_lt.mpr hd0)
  · intro ht
    rw [if_neg, if_pos ht]
    · exact ⟨_, rfl, rfl⟩
    · push_neg
      rcases ht with h | h
      · refine ⟨le_of_eq h, by rw [h]; exact habs, ?_⟩
        intro hd
        linarith
      · refine ⟨by rw [h]; exact habs, le_of_eq h.symm, ?_⟩
        intro hd
        have h0 : |r1 - r2| = 0 := h.symm.trans hd
        linarith [abs_eq_zero.mp h0]
  · intro hn
    rw [if_pos]
    rcases hn with h | h
    · exact Or.inl h
    · exact Or.inr (Or.inl h)

/-- C4 witness: the circles centered at `(0,0)` and `(10,0)`, both of radius 5,
are externally tangent (`d = 10 = r1 + r2`) and the function returns exactly
one point. -/
theorem C4_circle_intersection_counts_witness :
    ∃ L, circleCircleIntersection ⟨0, 0⟩ 5 ⟨10, 0⟩ 5 = some L ∧ L.length = 1 := by
  have hd : distance (⟨0, 0⟩ : Point) ⟨10, 0⟩ = 10 := by
    rw [distance_eq]
    exact sqrt_eq_of_sq (by norm_num) (by norm_num)
  exact (C4_circle_intersection_counts ⟨0, 0⟩ 5 ⟨10, 0⟩ 5 (by norm_num)
    (by norm_num)).2.1 (Or.inl (by rw [hd]; norm_num))

/-! ### C9: the tangency scenario of the spec -/

/-- C9 counterexample: for the circles centered at `(0,0)` and `(10,0)` with
radius 5 the function returns one intersection point, not the two points
`(5, ±4.33)` asserted by the spec (the circles are externally tangent). -/
theorem C9_tangent_scenario_counterexample :
    (circleCircleIntersection ⟨0, 0⟩ 5 ⟨10, 0⟩ 5).map List.length = some 1 := by
  have hd : Real.sqrt (((10 : ℝ) - 0) ^ 2 + ((0 : ℝ) - 0) ^ 2) = 10 :=
    sqrt_eq_of_sq (by norm_num) (by norm_num)
  unfold circleCircleIntersection
  simp only [hd]
  norm_num

/-- C9 amended: circles centered at `(0,0)` and `(10,0)`, both of radius 5, are
externally tangent; `circleCircleIntersection` returns exactly one point,
`(5, 0)`. -/
theorem C9_tangent_scenario_amended :
    circleCircleIntersection ⟨0, 0⟩ 5 ⟨10, 0⟩ 5 = some [⟨5, 0⟩] := by
  have hd : Real.sqrt (((10 : ℝ) - 0) ^ 2 + ((0 : ℝ) - 0) ^ 2) = 10 :=
    sqrt_eq_of_sq (by norm_num) (by norm_num)
  unfold circleCircleIntersection
  simp only [hd]
  norm_num [Real.sqrt_zero]

/-! ### C10: concentric circles with equal radii -/

/-- C10: for coincident centers and equal positive radii the no-solution guard
is not taken (it only rejects concentric circles with unequal radii), so the
function does not return the uniform failure value `none`.  In JavaScript the
ensuing division by `d = 0` makes the returned coordinates `NaN`; here the
total-division convention gives a finite point, but in both semantics the
failure branch misses this input. -/
theorem C10_concentric_equal_radii_not_failure (c : Point) (r : ℝ) (hr : 0 < r) :
    circleCircleIntersection c r c r ≠ none := by
  have hd : Real.sqrt ((c.x - c.x) ^ 2 + (c.y - c.y) ^ 2) = 0 := by
    simp
  unfold circleCircleIntersection
  rw [hd, if_neg]
  · split_ifs <;> simp
  · push_neg
    refine ⟨by linarith, by simp, fun _ => rfl⟩

/-- C10 witness: the unit circle paired with itself. -/
theorem C10_concentric_equal_radii_not_failure_witness :
    circleCircleIntersection ⟨0, 0⟩ 1 ⟨0, 0⟩ 1 ≠ none :=
  C10_concentric_equal_radii_not_failure ⟨0, 0⟩ 1 (by norm_num)

/-! ### Structure of the solver's candidate selection -/

lemma mem_of_mem_pointFilter {P : Point → Prop} {l : List Point} {c : Point}
    (h : c ∈ pointFilter P l) : c ∈ l := by
  induction l with
  | nil => simp [pointFilter] at h
  | cons p ps ih =>
    rw [pointFilter] at h
    split_ifs at h with hp
    · rcases List.mem_cons.mp h with h | h
      · exact h ▸ List.mem_cons_self _ _
      · exact List.mem_cons_of_mem _ (ih h)
    · exact List.mem_cons_of_mem _ (ih h)

lemma gate_of_mem_pointFilter {P : Point → Prop} {l : List Point} {c : Point}
    (h : c ∈ pointFilter P l) : P c := by
  induction l with
  | nil => simp [pointFilter] at h
  | cons p ps ih =>
    rw [pointFilter] at h
    split_ifs at h with hp
    · rcases List.mem_cons.mp h with h | h
      · exact h ▸ hp
      · exact ih h
    · exact ih h

lemma mem_pointFilter_of_mem {P : Point → Prop} {l : List Point} {c : Point}
    (hc : c ∈ l) (hP : P c) : c ∈ pointFilter P l := by
  induction l with
  | nil => simp at hc
  | cons p ps ih =>
    rw [pointFilter]
    rcases List.mem_cons.mp hc with h | h
    · subst h
      rw [if_pos hP]
      exact List.mem_cons_self _ _
    · split_ifs with hp
      · exact List.mem_cons_of_mem _ (ih h)
      · exact ih h

lemma foldl_closest_mem (ref : Point) (ps : List Point) (p : Point) :
    ps.foldl (fun best q => if distance q ref < distance best ref then q else best) p
      ∈ p :: ps := by
  induction ps generalizing p with
  | nil => simp
  | cons q qs ih =>
    rw [List.foldl_cons]
    rcases List.mem_cons.mp (ih (if distance q ref < distance p ref then q else p)) with h | h
    · rw [h]
      split_ifs
      · exact List.mem_cons_of_mem _ (List.mem_cons_self _ _)
      · exact List.mem_cons_self _ _
    · exact List.mem_cons_of_mem _ (List.mem_cons_of_mem _ h)

lemma chooseClosest_mem {ref : Point} {l : List Point} (h : l ≠ []) :
    ∃ c, chooseClosest ref l = some c ∧ c ∈ l := by
  cases l with
  | nil => exact absurd rfl h
  | cons p ps => exact ⟨_, rfl, foldl_closest_mem ref ps p⟩

lemma head?_mem {l : List Point} (h : l ≠ []) :
    ∃ c, l.head? = some c ∧ c ∈ l := by
  cases l with
  | nil => exact absurd rfl h
  | cons p ps => exact ⟨p, rfl, List.mem_cons_self _ _⟩

lemma selectFrom_mem (st : DState) (C : Point) {V : List Point} (h : V ≠ []) :
    ∃ c, selectFrom st C V = some c ∧ c ∈ V := by
  unfold selectFrom
  split_ifs with h1
  · exact head?_mem h
  · cases h2 : st.lastValidC <;> simp only [h2] <;> exact chooseClosest_mem h

lemma selectFrom_singleton (st : DState) (C p : Point) :
    selectFrom st C [p] = some p := by
  unfold selectFrom
  simp

/-- Every run of the solver either fails, returning the state unchanged, or
succeeds on a candidate drawn from the gated intersection list, assigning
exactly `lastValidC`. -/
lemma calc_cases (st : DState) (m : ℝ) :
    calculateAnimatedStateForAngle st m = (none, st) ∨
    ∃ θ₀ chosen,
      st.initialInputAngle = some θ₀ ∧
      ¬(distance st.pivots.A st.pivots.B < 1 ∨ distance st.pivots.C st.pivots.D < 1 ∨
        distance st.pivots.B st.pivots.C < 1) ∧
      (∃ L, circleCircleIntersection (newBpoint st.pivots.A (distance st.pivots.A st.pivots.B) (θ₀ + m))
          (distance st.pivots.B st.pivots.C) st.pivots.D (distance st.pivots.C st.pivots.D) = some L ∧
        chosen ∈ pointFilter
          (gate st st.pivots.A (newBpoint st.pivots.A (distance st.pivots.A st.pivots.B) (θ₀ + m)) st.pivots.D) L) ∧
      calculateAnimatedStateForAngle st m =
        (some ⟨st.pivots.A, newBpoint st.pivots.A (distance st.pivots.A st.pivots.B) (θ₀ + m),
          chosen, st.pivots.D⟩,
         { st with lastValidC := some chosen }) := by
  unfold calculateAnimatedStateForAngle
  rcases hθ : st.initialInputAngle with _ | θ₀
  · exact Or.inl rfl
  · simp only []
    by_cases hdeg : distance st.pivots.A st.pivots.B < 1 ∨ distance st.pivots.C st.pivots.D < 1 ∨
        distance st.pivots.B st.pivots.C < 1
    · rw [if_pos hdeg]
      exact Or.inl rfl
    · rw [if_neg hdeg]
      rcases hI : circleCircleIntersection (newBpoint st.pivots.A (distance st.pivots.A st.pivots.B) (θ₀ + m))
          (distance st.pivots.B st.pivots.C) st.pivots.D (distance st.pivots.C st.pivots.D) with _ | L
      · exact Or.inl rfl
      · simp only []
        by_cases hlen : L.length = 0
        · rw [if_pos hlen]
          exact Or.inl rfl
        · rw [if_neg hlen]
          by_cases hvlen : (pointFilter
              (gate st st.pivots.A (newBpoint st.pivots.A (distance st.pivots.A st.pivots.B) (θ₀ + m)) st.pivots.D) L).length = 0
          · rw [if_pos hvlen]
            exact Or.inl rfl
          · rw [if_neg hvlen]
            have hne : pointFilter
                (gate st st.pivots.A (newBpoint st.pivots.A (distance st.pivots.A st.pivots.B) (θ₀ + m)) st.pivots.D) L ≠ [] := by
              intro h
              exact hvlen (by rw [h]; rfl)
            obtain ⟨c, hc, hcm⟩ := selectFrom_mem st st.pivots.C hne
            rw [hc]
            exact Or.inr ⟨θ₀, c, rfl, hdeg, ⟨L, hI, hcm⟩, rfl⟩

/-! ### A reference state solvable at every offset

With `A = D = (0, 0)`, `B = (5, 0)`, `C = (-5, 0)` the two solution circles are
internally tangent at every input angle, so the solver succeeds at every offset
with the unique candidate `C'(m) = (-5 cos m, -5 sin m)`.  This concrete state
exercises the range finder and the validity gates end to end. -/

/-- A reference state whose solver succeeds at every angle offset. -/
def tangentState : DState where
  pivots := ⟨⟨0, 0⟩, ⟨5, 0⟩, ⟨-5, 0⟩, ⟨0, 0⟩⟩
  initialInputAngle := some 0
  initialOrientations := some (0, 0)
  lastValidC := some ⟨-5, 0⟩
  hingeUnlocked := false

/-- The unique coupler-joint solution of `tangentState` at offset `m`. -/
noncomputable def tangentC (m : ℝ) : Point := ⟨-5 * Real.cos m, -5 * Real.sin m⟩

lemma orientation_self_left (p r : Point) : orientation p p r = 0 := by
  unfold orientation
  rw [if_pos]
  rw [show (p.y - p.y) * (r.x - p.x) - (p.x - p.x) * (r.y - p.y) = 0 by ring]
  norm_num

lemma orientation_last_eq (p q : Point) : orientation p q q = 0 := by
  unfold orientation
  rw [if_pos]
  rw [show (q.y - p.y) * (q.x - q.x) - (q.x - p.x) * (q.y - q.y) = 0 by ring]
  norm_num

lemma orientation_first_last (p q : Point) : orientation p q p = 0 := by
  unfold orientation
  rw [if_pos]
  rw [show (q.y - p.y) * (p.x - q.x) - (q.x - p.x) * (p.y - q.y) = 0 by ring]
  norm_num

lemma tangent_cci (m : ℝ) :
    circleCircleIntersection ⟨5 * Real.cos m, 5 * Real.sin m⟩ 10 ⟨0, 0⟩ 5 =
      some [tangentC m] := by
  have hd : Real.sqrt ((0 - 5 * Real.cos m) ^ 2 + (0 - 5 * Real.sin m) ^ 2) = 5 := by
    apply sqrt_eq_of_sq (by norm_num)
    linear_combination (-25 : ℝ) * Real.sin_sq_add_cos_sq m
  unfold circleCircleIntersection
  dsimp only
  rw [hd, if_neg, if_pos]
  · congr 1
    have h0 : Real.sqrt (max 0 (10 * 10 - (10 * 10 - 5 * 5 + 5 * 5) / (2 * 5) *
        ((10 * 10 - 5 * 5 + 5 * 5) / (2 * 5)))) = 0 := by
      rw [show max 0 (10 * 10 - (10 * 10 - 5 * 5 + 5 * 5) / (2 * 5) *
        ((10 * 10 - 5 * 5 + 5 * 5) / (2 * 5))) = (0 : ℝ) by norm_num]
      exact Real.sqrt_zero
    rw [List.cons.injEq]
    refine ⟨?_, rfl⟩
    rw [Point.ext_iff]
    unfold tangentC
    constructor
    · show 5 * Real.cos m + (10 * 10 - 5 * 5 + 5 * 5) / (2 * 5) * (0 - 5 * Real.cos m) / 5 + _ * (0 - 5 * Real.sin m) / 5 = -5 * Real.cos m
      rw [h0]
      ring_nf
    · show 5 * Real.sin m + (10 * 10 - 5 * 5 + 5 * 5) / (2 * 5) * (0 - 5 * Real.sin m) / 5 - _ * (0 - 5 * Real.cos m) / 5 = -5 * Real.sin m
      rw [h0]
      ring_nf
  · right
    rw [show |(10 : ℝ) - 5| = 5 by norm_num]
  · push_neg
    refine ⟨by norm_num, ?_, by norm_num⟩
    rw [show |(10 : ℝ) - 5| = 5 by norm_num]

lemma tangent_gate (lc : Option Point) (m : ℝ) :
    gate ⟨⟨⟨0, 0⟩, ⟨5, 0⟩, ⟨-5, 0⟩, ⟨0, 0⟩⟩, some 0, some (0, 0), lc, false⟩ ⟨0, 0⟩
      ⟨5 * Real.cos m, 5 * Real.sin m⟩ ⟨0, 0⟩ (tangentC m) := by
  unfold gate
  dsimp only
  rw [if_neg (by simp)]
  refine ⟨?_, ?_, ?_⟩
  · unfold segmentsIntersect
    refine Or.inr (Or.inr (Or.inl ⟨orientation_first_last _ _, ?_⟩))
    unfold onSegment
    exact ⟨le_max_left _ _, min_le_left _ _, le_max_left _ _, min_le_left _ _⟩
  · exact orientation_self_left _ _
  · exact orientation_last_eq _ _

/-- The solver on `tangentState` (with any stored `lastValidC`) succeeds at
every offset `m`, returning the pose with `B' = (5 cos m, 5 sin m)` and
`C' = (-5 cos m, -5 sin m)` and storing that `C'`. -/
lemma tangent_calc (lc : Option Point) (m : ℝ) :
    calculateAnimatedStateForAngle { tangentState with lastValidC := lc } m =
      (some ⟨⟨0, 0⟩, ⟨5 * Real.cos m, 5 * Real.sin m⟩, tangentC m, ⟨0, 0⟩⟩,
       { tangentState with lastValidC := some (tangentC m) }) := by
  have hAB : distance (⟨0, 0⟩ : Point) ⟨5, 0⟩ = 5 := by
    rw [distance_eq]; exact sqrt_eq_of_sq (by norm_num) (by norm_num)
  have hCD : distance (⟨-5, 0⟩ : Point) ⟨0, 0⟩ = 5 := by
    rw [distance_eq]; exact sqrt_eq_of_sq (by norm_num) (by norm_num)
  have hBC : distance (⟨5, 0⟩ : Point) ⟨-5, 0⟩ = 10 := by
    rw [distance_eq]; exact sqrt_eq_of_sq (by norm_num) (by norm_num)
  have hnB : newBpoint ⟨0, 0⟩ 5 (0 + m) = (⟨5 * Real.cos m, 5 * Real.sin m⟩ : Point) := by
    unfold newBpoint
    rw [Point.ext_iff]
    constructor <;> · dsimp only; rw [zero_add]; ring_nf
  unfold calculateAnimatedStateForAngle tangentState
  dsimp only
  rw [hAB, hCD, hBC, hnB, if_neg (by norm_num), tangent_cci m]
  dsimp only [pointFilter]
  rw [if_neg (by simp), if_pos (tangent_gate lc m)]
  rw [if_neg (by simp), selectFrom_singleton]

/-! ### C6: success/failure atomicity of the solver -/

/-- C6: the solver assigns `lastValidC` exactly on success (to the chosen
candidate, which is the `C` of the returned state); every failure path returns
`none` and leaves the whole state — in particular `lastValidC` — unchanged. -/
theorem C6_solver_atomicity (st : DState) (angleOffset : ℝ) :
    ((calculateAnimatedStateForAngle st angleOffset).1 = none →
      (calculateAnimatedStateForAngle st angleOffset).2 = st) ∧
    (∀ s, (calculateAnimatedStateForAngle st angleOffset).1 = some s →
      (calculateAnimatedStateForAngle st angleOffset).2 =
        { st with lastValidC := some s.C }) := by
  rcases calc_cases st angleOffset with h | ⟨θ₀, chosen, _, _, _, h⟩
  · rw [h]
    exact ⟨fun _ => rfl, fun s hs => by simp at hs⟩
  · rw [h]
    refine ⟨fun hn => by simp at hn, fun s hs => ?_⟩
    simp only [Option.some.injEq] at hs
    rw [← hs]

/-- C6 witness: on the tangent reference state at offset `0` the solver
succeeds, and the returned object state is exactly the input state with
`lastValidC` set to the returned `C`. -/
theorem C6_solver_atomicity_witness :
    (calculateAnimatedStateForAngle tangentState 0).2 =
      { tangentState with lastValidC := some (tangentC 0) } := by
  have hc : (calculateAnimatedStateForAngle tangentState 0).1 =
      some ⟨⟨0, 0⟩, ⟨5 * Real.cos 0, 5 * Real.sin 0⟩, tangentC 0, ⟨0, 0⟩⟩ := by
    rw [show calculateAnimatedStateForAngle tangentState 0 =
        calculateAnimatedStateForAngle { tangentState with lastValidC := some ⟨-5, 0⟩ } 0
      from rfl, tangent_calc]
  exact (C6_solver_atomicity tangentState 0).2 _ hc

/-! ### C5: invariants of locked-mode solutions -/

/-- C5: in locked mode (`hingeUnlocked = false`), with reference orientations
`(adb, cda)` stored, every state returned by the solver keeps the crossed
configuration `segmentsIntersect(A, B', C', D)` and reproduces the stored
orientation signs for the triples `(A, D, B')` and `(C', A, D)`. -/
theorem C5_locked_mode_invariants (st : DState) (m : ℝ) (s : MechState)
    (adb cda : ℤ)
    (hlock : st.hingeUnlocked = false)
    (hor : st.initialOrientations = some (adb, cda))
    (hs : (calculateAnimatedStateForAngle st m).1 = some s) :
    segmentsIntersect s.A s.B s.C s.D ∧
    orientation s.A s.D s.B = adb ∧ orientation s.C s.A s.D = cda := by
  rcases calc_cases st m with h | ⟨θ₀, chosen, hθ, hdeg, ⟨L, hI, hmem⟩, heq⟩
  · rw [h] at hs
    simp at hs
  · rw [heq] at hs
    simp only [Option.some.injEq] at hs
    have hg := gate_of_mem_pointFilter hmem
    unfold gate at hg
    rw [hlock] at hg
    rw [if_neg (by simp)] at hg
    rw [hor] at hg
    obtain ⟨hcross, hadb, hcda⟩ := hg
    rw [← hs]
    exact ⟨hcross, hadb, hcda⟩

/-- C5 witness: the locked tangent reference state at offset `0`; the returned
pose is crossed and both orientation triples reproduce the stored signs `0`. -/
theorem C5_locked_mode_invariants_witness :
    segmentsIntersect (⟨0, 0⟩ : Point) ⟨5 * Real.cos 0, 5 * Real.sin 0⟩ (tangentC 0) ⟨0, 0⟩ ∧
    orientation (⟨0, 0⟩ : Point) ⟨0, 0⟩ ⟨5 * Real.cos 0, 5 * Real.sin 0⟩ = 0 ∧
    orientation (tangentC 0) ⟨0, 0⟩ ⟨0, 0⟩ = 0 := by
  have hc : (calculateAnimatedStateForAngle tangentState 0).1 =
      some ⟨⟨0, 0⟩, ⟨5 * Real.cos 0, 5 * Real.sin 0⟩, tangentC 0, ⟨0, 0⟩⟩ := by
    rw [show calculateAnimatedStateForAngle tangentState 0 =
        calculateAnimatedStateForAngle { tangentState with lastValidC := some ⟨-5, 0⟩ } 0
      from rfl, tangent_calc]
  exact C5_locked_mode_invariants tangentState 0
    ⟨⟨0, 0⟩, ⟨5 * Real.cos 0, 5 * Real.sin 0⟩, tangentC 0, ⟨0, 0⟩⟩ 0 0 rfl rfl hc

/-! ### C3: what the range finder actually returns -/

/-- C3 counterexample: on the tangent reference state (valid at offset 0, as
the first conjunct shows) the range finder returns `min = 0`, yet the solver
still succeeds at `min - ε` for `ε = 1/100`, far beyond the `1e-4` search
precision — `findRange` does not bound the valid range from below. -/
theorem C3_range_finder_counterexample :
    (calculateAnimatedStateForAngle tangentState 0).1 ≠ none ∧
    (calculateAngleLimits tangentState).1.min = 0 ∧
    (calculateAnimatedStateForAngle tangentState (0 - 1 / 100)).1 ≠ none := by
  refine ⟨?_, rfl, ?_⟩
  · rw [show calculateAnimatedStateForAngle tangentState 0 =
        calculateAnimatedStateForAngle { tangentState with lastValidC := some ⟨-5, 0⟩ } 0
      from rfl, tangent_calc]
    simp
  · rw [show calculateAnimatedStateForAngle tangentState (0 - 1 / 100) =
        calculateAnimatedStateForAngle { tangentState with lastValidC := some ⟨-5, 0⟩ }
          (0 - 1 / 100) from rfl, tangent_calc]
    simp

/-- C3 amended: `calculateAngleLimits` always returns `min = 0` (the reference
offset itself, not a searched lower bound) and returns as `max` one of the two
directional binary-search results (the positive-direction one or the
negative-direction one, whichever has larger absolute value) — so `min ≤ 0`
holds trivially, but `0 ≤ max` and the failure of the solver beyond `[min, max]`
are not guaranteed. -/
theorem C3_range_finder_amended (st : DState) :
    (calculateAngleLimits st).1.min = 0 ∧
    ((calculateAngleLimits st).1.max = (findLimit st 1 0).1 ∨
     (calculateAngleLimits st).1.max = (findLimit (findLimit st 1 0).2 (-1) 0).1) := by
  unfold calculateAngleLimits
  dsimp only
  refine ⟨rfl, ?_⟩
  split_ifs
  · left
    rfl
  · right
    rfl

/-! ### C8: collinear poses make the synthesizer fail hard -/

lemma findLineIntersection_iff_parallel (s1 e1 s2 e2 : Point) :
    findLineIntersection ⟨s1, e1⟩ ⟨s2, e2⟩ = none ↔
      |(s1.x - e1.x) * (s2.y - e2.y) - (s1.y - e1.y) * (s2.x - e2.x)| < 1e-10 := by
  unfold findLineIntersection
  dsimp only
  split_ifs with h
  · exact iff_of_true rfl h
  · exact iff_of_false (by simp) h

/-- When three consecutive positions are collinear, the two perpendicular
bisectors are parallel and the intersection routine reports `none`. -/
lemma perp_bisectors_parallel (q1 q2 q3 : Point)
    (hcol : (q2.x - q1.x) * (q3.y - q2.y) - (q2.y - q1.y) * (q3.x - q2.x) = 0) :
    findLineIntersection (createPerpendicular (mkConnLine q1 q2))
      (createPerpendicular (mkConnLine q2 q3)) = none := by
  unfold createPerpendicular mkConnLine calculateMidpoint
  dsimp only
  rw [findLineIntersection_iff_parallel]
  dsimp only
  apply lt_of_le_of_lt (le_of_eq ?_) (by norm_num : (0 : ℝ) < 1e-10)
  rw [abs_eq_zero]
  linear_combination (4000000 /
      (Real.sqrt (-(q2.y - q1.y) * -(q2.y - q1.y) + (q2.x - q1.x) * (q2.x - q1.x)) *
       Real.sqrt (-(q3.y - q2.y) * -(q3.y - q2.y) + (q3.x - q2.x) * (q3.x - q2.x)))) * hcol

/-- C8: when the three transformed positions of coupler point `A` are collinear
(and pairwise distinct, so that the JS computation stays `NaN`-free and the
two-line determinant is genuinely below `1e-10`), the two perpendicular
bisectors are parallel, the pivot for that side is `null`, and the synthesis
attempt fails hard with no pivot output: building the result object
dereferences the `null` pivot, so the caller never receives partial pivots. -/
theorem C8_collinear_synthesis_fails (p1 p2 p3 : LidPose) (cpA cpB : Point)
    (hcol : ((transformPoint cpA p2.center p2.rotation).x - (transformPoint cpA p1.center p1.rotation).x) *
        ((transformPoint cpA p3.center p3.rotation).y - (transformPoint cpA p2.center p2.rotation).y) -
        ((transformPoint cpA p2.center p2.rotation).y - (transformPoint cpA p1.center p1.rotation).y) *
        ((transformPoint cpA p3.center p3.rotation).x - (transformPoint cpA p2.center p2.rotation).x) = 0)
    (_h12 : transformPoint cpA p1.center p1.rotation ≠ transformPoint cpA p2.center p2.rotation)
    (_h23 : transformPoint cpA p2.center p2.rotation ≠ transformPoint cpA p3.center p3.rotation) :
    calculateMechanism p1 p2 p3 cpA cpB = none := by
  unfold calculateMechanism
  dsimp only
  rw [perp_bisectors_parallel _ _ _ hcol]

/-- C8 witness: three poses translated along a line with no rotation; the
transformed positions `(0,0)`, `(1,0)`, `(2,0)` of the first coupler point are
collinear and distinct, and synthesis fails with no output. -/
theorem C8_collinear_synthesis_fails_witness :
    calculateMechanism ⟨⟨0, 0⟩, 0⟩ ⟨⟨1, 0⟩, 0⟩ ⟨⟨2, 0⟩, 0⟩ ⟨0, 0⟩ ⟨0, 1⟩ = none := by
  have htp : ∀ c : Point, transformPoint ⟨0, 0⟩ c 0 = c := by
    intro c
    unfold transformPoint
    rw [show (0 : ℝ) * π / 180 = 0 by ring]
    ext <;> · dsimp only; rw [Real.cos_zero, Real.sin_zero]; ring
  apply C8_collinear_synthesis_fails
  · rw [htp ⟨0, 0⟩, htp ⟨1, 0⟩, htp ⟨2, 0⟩]
    norm_num
  · rw [htp ⟨0, 0⟩, htp ⟨1, 0⟩]
    intro h
    rw [Point.ext_iff] at h
    exact absurd h.1 (by norm_num)
  · rw [htp ⟨1, 0⟩, htp ⟨2, 0⟩]
    intro h
    rw [Point.ext_iff] at h
    exact absurd h.1 (by norm_num)

/-! ### Helper lemmas for the identity property (C1) -/

/-- On candidate lists of at most two points, the nearest-to-`C` selection picks
`C` itself whenever `C` is among the candidates. -/
lemma chooseClosest_self {C : Point} {l : List Point} (hC : C ∈ l)
    (hlen : l.length ≤ 2) : chooseClosest C l = some C := by
  cases l with
  | nil => simp at hC
  | cons p l2 =>
    cases l2 with
    | nil =>
      have hcp : C = p := by simpa using hC
      subst hcp
      rfl
    | cons q l3 =>
      cases l3 with
      | nil =>
        unfold chooseClosest
        simp only [List.foldl_cons, List.foldl_nil, Option.some.injEq]
        rcases (by simpa using hC : C = p ∨ C = q) with rfl | rfl
        · rw [if_neg]
          rw [distance_self]
          exact not_lt.mpr (distance_nonneg _ _)
        · by_cases hp : p = C
          · subst hp
            rw [if_neg (lt_irrefl _)]
          · rw [if_pos]
            rw [distance_self]
            exact distance_pos_of_ne hp
      | cons r l4 => simp at hlen

/-- At the reference input angle `atan2(B - A)`, the recomputed driven joint is
the reference `B` itself. -/
lemma newBpoint_atan2 (A B : Point) (hab : distance A B ≠ 0) :
    newBpoint A (distance A B) (atan2 (B.y - A.y) (B.x - A.x) + 0) = B := by
  have hz : (⟨B.x - A.x, B.y - A.y⟩ : ℂ) ≠ 0 := by
    intro h
    apply hab
    have h1 : B.x - A.x = 0 := by
      have := congrArg Complex.re h
      simpa using this
    have h2 : B.y - A.y = 0 := by
      have := congrArg Complex.im h
      simpa using this
    rw [distance_eq, h1, h2]
    simp
  have habs : Complex.abs ⟨B.x - A.x, B.y - A.y⟩ = distance A B := by
    rw [distance_eq, Complex.abs_apply, Complex.normSq_mk]
    congr 1
    ring
  have habsne : Complex.abs ⟨B.x - A.x, B.y - A.y⟩ ≠ 0 := by
    rw [habs]
    exact hab
  unfold newBpoint atan2
  rw [add_zero, Complex.cos_arg hz, Complex.sin_arg, ← habs]
  ext
  · dsimp only
    rw [mul_comm, div_mul_cancel₀ _ habsne]
    ring
  · dsimp only
    rw [mul_comm, div_mul_cancel₀ _ habsne]
    ring

lemma coord_combination (u v cx cy dx dy d : ℝ) (hdne : d ≠ 0)
    (hu : u * d = cx * dx + cy * dy) (hv : v * d = cx * dy - cy * dx)
    (hd2 : dx ^ 2 + dy ^ 2 = d ^ 2) :
    u * dx / d + v * dy / d = cx ∧ u * dy / d - v * dx / d = cy := by
  have hu' : u = (cx * dx + cy * dy) / d := by rw [eq_div_iff hdne]; exact hu
  have hv' : v = (cx * dy - cy * dx) / d := by rw [eq_div_iff hdne]; exact hv
  constructor
  · rw [hu', hv', div_mul_eq_mul_div, div_mul_eq_mul_div, div_add_div_same, div_add_div_same,
      div_div, div_eq_iff (mul_ne_zero hdne hdne)]
    linear_combination cx * hd2
  · rw [hu', hv', div_mul_eq_mul_div, div_mul_eq_mul_div, div_sub_div_same, div_sub_div_same,
      div_div, div_eq_iff (mul_ne_zero hdne hdne)]
    linear_combination cy * hd2

lemma refpt_a (u1 u2 v1 v2 r1 r2 d a : ℝ)
    (hu : u1 ^ 2 + u2 ^ 2 = r1 ^ 2)
    (hv : (v1 - u1) ^ 2 + (v2 - u2) ^ 2 = r2 ^ 2)
    (hd2 : v1 ^ 2 + v2 ^ 2 = d ^ 2)
    (ha : a * (2 * d) = r1 * r1 - r2 * r2 + d * d) :
    a * d = u1 * v1 + u2 * v2 := by
  linear_combination (1 / 2) * ha - (1 / 2) * hu + (1 / 2) * hv - (1 / 2) * hd2

lemma refpt_beta_sq (u1 u2 v1 v2 r1 d a : ℝ)
    (hu : u1 ^ 2 + u2 ^ 2 = r1 ^ 2)
    (hd2 : v1 ^ 2 + v2 ^ 2 = d ^ 2)
    (hα : a * d = u1 * v1 + u2 * v2) :
    (u1 * v2 - u2 * v1) ^ 2 = (r1 * r1 - a * a) * (d * d) := by
  linear_combination (a * d + u1 * v1 + u2 * v2) * hα + d ^ 2 * hu + (u1 ^ 2 + u2 ^ 2) * hd2

set_option maxHeartbeats 1600000 in
/-- With the driven joint at `Bp ≠ D`, the intersection of the circle of radius
`|BpC|` around `Bp` with the circle of radius `|CD|` around `D` always contains
the reference point `C`: the returned list is `[C]`, `[C, other]`, or
`[other, C]` with `other ≠ C`. -/
lemma cci_reference (Bp C D : Point) (hBD : Bp ≠ D) :
    circleCircleIntersection Bp (distance Bp C) D (distance C D) = some [C] ∨
    (∃ other, circleCircleIntersection Bp (distance Bp C) D (distance C D) = some [C, other]) ∨
    (∃ other, other ≠ C ∧
      circleCircleIntersection Bp (distance Bp C) D (distance C D) = some [other, C]) := by
  have hdpos : 0 < distance Bp D := distance_pos_of_ne hBD
  have hr1nn : 0 ≤ distance Bp C := distance_nonneg _ _
  have hr2nn : 0 ≤ distance C D := distance_nonneg _ _
  have hu : (C.x - Bp.x) ^ 2 + (C.y - Bp.y) ^ 2 = distance Bp C ^ 2 := (distance_sq _ _).symm
  have hv' : (D.x - C.x) ^ 2 + (D.y - C.y) ^ 2 = distance C D ^ 2 := (distance_sq _ _).symm
  have hd2 : (D.x - Bp.x) ^ 2 + (D.y - Bp.y) ^ 2 = distance Bp D ^ 2 := (distance_sq _ _).symm
  set r1 := distance Bp C with hr1def
  set r2 := distance C D with hr2def
  set d := distance Bp D with hddef
  have hdne : d ≠ 0 := ne_of_gt hdpos
  unfold circleCircleIntersection
  rw [← distance_eq Bp D, ← hddef]
  dsimp only
  set a := (r1 * r1 - r2 * r2 + d * d) / (2 * d) with haa
  have ha' : a * (2 * d) = r1 * r1 - r2 * r2 + d * d := by
    rw [haa]
    exact div_mul_cancel₀ _ (by positivity)
  have hα : a * d = (C.x - Bp.x) * (D.x - Bp.x) + (C.y - Bp.y) * (D.y - Bp.y) :=
    refpt_a (C.x - Bp.x) (C.y - Bp.y) (D.x - Bp.x) (D.y - Bp.y) r1 r2 d a hu
      (by linear_combination hv') hd2 ha'
  have hβ1 : ((C.x - Bp.x) * (D.y - Bp.y) - (C.y - Bp.y) * (D.x - Bp.x)) ^ 2 =
      (r1 * r1 - a * a) * (d * d) :=
    refpt_beta_sq (C.x - Bp.x) (C.y - Bp.y) (D.x - Bp.x) (D.y - Bp.y) r1 d a hu hd2 hα
  have hα2 : (a - d) * d = ((C.x - Bp.x) - (D.x - Bp.x)) * (D.x - Bp.x) +
      ((C.y - Bp.y) - (D.y - Bp.y)) * (D.y - Bp.y) := by
    linear_combination hα + hd2
  have hβ2 : ((C.x - Bp.x) * (D.y - Bp.y) - (C.y - Bp.y) * (D.x - Bp.x)) ^ 2 =
      (r2 * r2 - (a - d) * (a - d)) * (d * d) := by
    have hstep := refpt_beta_sq ((C.x - Bp.x) - (D.x - Bp.x)) ((C.y - Bp.y) - (D.y - Bp.y))
      (D.x - Bp.x) (D.y - Bp.y) r2 d (a - d) (by linear_combination hv') hd2 hα2
    linear_combination hstep
  have hddpos : 0 < d * d := mul_pos hdpos hdpos
  have hsq := sq_nonneg ((C.x - Bp.x) * (D.y - Bp.y) - (C.y - Bp.y) * (D.x - Bp.x))
  have nn1 : a * a ≤ r1 * r1 := by nlinarith [hβ1, hsq, hddpos]
  have nn2 : (a - d) * (a - d) ≤ r2 * r2 := by nlinarith [hβ2, hsq, hddpos]
  have hale : a ≤ r1 := by nlinarith [nn1, hr1nn]
  have hage : -r1 ≤ a := by nlinarith [nn1, hr1nn]
  have hdale : d - a ≤ r2 := by nlinarith [nn2, hr2nn]
  have hdage : a - d ≤ r2 := by nlinarith [nn2, hr2nn]
  have hguard1 : d ≤ r1 + r2 := by linarith
  have hdiff : r1 * r1 - a * a = r2 * r2 - (a - d) * (a - d) :=
    mul_right_cancel₀ (ne_of_gt hddpos) (hβ1.symm.trans hβ2)
  have hguard2a : r1 - r2 ≤ d := by nlinarith [hdiff, nn2, hdpos, hr2nn, hr1nn, hale]
  have hguard2b : r2 - r1 ≤ d := by nlinarith [hdiff, nn1, hdpos, hr2nn, hr1nn, hage]
  rw [if_neg (by
    push_neg
    exact ⟨hguard1, abs_le.mpr ⟨by linarith, by linarith⟩, fun h0 => absurd h0 hdne⟩)]
  have hannn : 0 ≤ r1 * r1 - a * a := by nlinarith [nn1]
  have hmax : max 0 (r1 * r1 - a * a) = r1 * r1 - a * a := max_eq_right hannn
  have hh2 : Real.sqrt (max 0 (r1 * r1 - a * a)) ^ 2 = r1 * r1 - a * a := by
    rw [hmax]
    exact Real.sq_sqrt hannn
  have hhnn : 0 ≤ Real.sqrt (max 0 (r1 * r1 - a * a)) := Real.sqrt_nonneg _
  set hgt := Real.sqrt (max 0 (r1 * r1 - a * a)) with hgtdef
  have hhd : (hgt * d) ^ 2 =
      ((C.x - Bp.x) * (D.y - Bp.y) - (C.y - Bp.y) * (D.x - Bp.x)) ^ 2 := by
    linear_combination (d * d) * hh2 - hβ1
  have habsb : hgt * d = |(C.x - Bp.x) * (D.y - Bp.y) - (C.y - Bp.y) * (D.x - Bp.x)| := by
    rw [← Real.sqrt_sq (mul_nonneg hhnn hdpos.le), hhd, Real.sqrt_sq_eq_abs]
  have hkey : 4 * (d * d) * (r1 * r1 - a * a) =
      ((r1 + r2) ^ 2 - d ^ 2) * (d ^ 2 - (r1 - r2) ^ 2) := by
    linear_combination (-(a * (2 * d) + (r1 * r1 - r2 * r2 + d * d))) * ha'
  by_cases hbpos : 0 ≤ (C.x - Bp.x) * (D.y - Bp.y) - (C.y - Bp.y) * (D.x - Bp.x)
  · have hvd : hgt * d = (C.x - Bp.x) * (D.y - Bp.y) - (C.y - Bp.y) * (D.x - Bp.x) := by
      rw [habsb, abs_of_nonneg hbpos]
    have hco := coord_combination a hgt (C.x - Bp.x) (C.y - Bp.y) (D.x - Bp.x) (D.y - Bp.y) d
      hdne hα hvd hd2
    have hCi1 : C = (⟨Bp.x + a * (D.x - Bp.x) / d + hgt * (D.y - Bp.y) / d,
        Bp.y + a * (D.y - Bp.y) / d - hgt * (D.x - Bp.x) / d⟩ : Point) := by
      ext
      · dsimp only
        linear_combination -hco.1
      · dsimp only
        linear_combination -hco.2
    split_ifs with ht
    · left
      rw [hCi1]
    · right
      left
      exact ⟨_, by rw [hCi1]⟩
  · push_neg at hbpos
    have hvd : (-hgt) * d = (C.x - Bp.x) * (D.y - Bp.y) - (C.y - Bp.y) * (D.x - Bp.x) := by
      rw [neg_mul, habsb, abs_of_neg hbpos, neg_neg]
    have hco := coord_combination a (-hgt) (C.x - Bp.x) (C.y - Bp.y) (D.x - Bp.x) (D.y - Bp.y) d
      hdne hα hvd hd2
    have hCi2 : C = (⟨Bp.x + a * (D.x - Bp.x) / d - hgt * (D.y - Bp.y) / d,
        Bp.y + a * (D.y - Bp.y) / d + hgt * (D.x - Bp.x) / d⟩ : Point) := by
      ext
      · dsimp only
        linear_combination -hco.1
      · dsimp only
        linear_combination -hco.2
    have hgtpos : 0 < hgt := by
      rcases lt_or_eq_of_le hhnn with h | h
      · exact h
      · exfalso
        have hb0 : (C.x - Bp.x) * (D.y - Bp.y) - (C.y - Bp.y) * (D.x - Bp.x) = 0 := by
          rw [← hvd, ← h]
          ring
        exact absurd hb0 (ne_of_lt hbpos)
    split_ifs with ht
    · exfalso
      have haa0 : r1 * r1 - a * a = 0 := by
        rcases ht with ht1 | ht2
        · have h40 : 4 * (d * d) * (r1 * r1 - a * a) = 0 := by
            rw [hkey, ht1]
            ring
          rcases mul_eq_zero.mp h40 with h | h
          · exact absurd h (by positivity)
          · exact h
        · have hds : d ^ 2 = (r1 - r2) ^ 2 := by rw [ht2, sq_abs]
          have h40 : 4 * (d * d) * (r1 * r1 - a * a) = 0 := by
            rw [hkey]
            linear_combination ((r1 + r2) ^ 2 - d ^ 2) * hds
          rcases mul_eq_zero.mp h40 with h | h
          · exact absurd h (by positivity)
          · exact h
      have hb20 : ((C.x - Bp.x) * (D.y - Bp.y) - (C.y - Bp.y) * (D.x - Bp.x)) ^ 2 = 0 := by
        rw [hβ1, haa0]
        ring
      have hb0 := (pow_eq_zero_iff (by norm_num : (2 : ℕ) ≠ 0)).mp hb20
      exact absurd hb0 (ne_of_lt hbpos)
    · right
      right
      refine ⟨⟨Bp.x + a * (D.x - Bp.x) / d + hgt * (D.y - Bp.y) / d,
        Bp.y + a * (D.y - Bp.y) / d - hgt * (D.x - Bp.x) / d⟩, ?_, by rw [hCi2]⟩
      intro heq
      rw [hCi2, Point.ext_iff] at heq
      obtain ⟨hex, hey⟩ := heq
      dsimp only at hex hey
      have hy0 : hgt * (D.y - Bp.y) / d = 0 := by linarith
      have hx0 : hgt * (D.x - Bp.x) / d = 0 := by linarith
      have hyy : D.y - Bp.y = 0 := by
        rcases div_eq_zero_iff.mp hy0 with h | h
        · rcases mul_eq_zero.mp h with h2 | h2
          · exact absurd h2 (ne_of_gt hgtpos)
          · exact h2
        · exact absurd h hdne
      have hxx : D.x - Bp.x = 0 := by
        rcases div_eq_zero_iff.mp hx0 with h | h
        · rcases mul_eq_zero.mp h with h2 | h2
          · exact absurd h2 (ne_of_gt hgtpos)
          · exact h2
        · exact absurd h hdne
      have hdz : d ^ 2 = 0 := by
        rw [← hd2, hxx, hyy]
        ring
      exact hdne ((pow_eq_zero_iff (by norm_num : (2 : ℕ) ≠ 0)).mp hdz)

/-! ### C2: rigidity of returned states -/

lemma circle_point_dist1 (dx dy d a h r1 : ℝ) (hd : d ≠ 0)
    (hd2 : dx ^ 2 + dy ^ 2 = d ^ 2) (hh2 : h ^ 2 = r1 * r1 - a * a) :
    r1 ^ 2 = (a * dx / d + h * dy / d) ^ 2 + (a * dy / d - h * dx / d) ^ 2 := by
  have expand : (a * dx / d + h * dy / d) ^ 2 + (a * dy / d - h * dx / d) ^ 2 =
      (a ^ 2 + h ^ 2) * ((dx ^ 2 + dy ^ 2) / d ^ 2) := by
    ring
  rw [expand, hd2, div_self (pow_ne_zero 2 hd), mul_one]
  linear_combination -hh2

lemma circle_point_dist2 (dx dy d a h r1 r2 : ℝ) (hd : d ≠ 0)
    (hd2 : dx ^ 2 + dy ^ 2 = d ^ 2) (hh2 : h ^ 2 = r1 * r1 - a * a)
    (ha : a * (2 * d) = r1 * r1 - r2 * r2 + d * d) :
    r2 ^ 2 = (dx - (a * dx / d + h * dy / d)) ^ 2 + (dy - (a * dy / d - h * dx / d)) ^ 2 := by
  have expand : (dx - (a * dx / d + h * dy / d)) ^ 2 + (dy - (a * dy / d - h * dx / d)) ^ 2 =
      (dx ^ 2 + dy ^ 2) - 2 * a * ((dx ^ 2 + dy ^ 2) / d) +
        (a ^ 2 + h ^ 2) * ((dx ^ 2 + dy ^ 2) / d ^ 2) := by
    ring
  have hdd2 : d ^ 2 / d = d := by
    rw [sq]
    exact mul_div_cancel_right₀ d hd
  rw [expand, hd2, hdd2, div_self (pow_ne_zero 2 hd), mul_one]
  linear_combination -hh2 + ha

/-- Every point of a list returned by `circleCircleIntersection` with distinct
centers and nonnegative radii lies on both circles. -/
lemma cci_member_distances (p1 : Point) (r1 : ℝ) (p2 : Point) (r2 : ℝ)
    (L : List Point) (hr1 : 0 ≤ r1) (hr2 : 0 ≤ r2) (hne : p1 ≠ p2)
    (hL : circleCircleIntersection p1 r1 p2 r2 = some L) :
    ∀ q ∈ L, distance p1 q = r1 ∧ distance q p2 = r2 := by
  have hdpos : 0 < distance p1 p2 := distance_pos_of_ne hne
  have hdne : distance p1 p2 ≠ 0 := ne_of_gt hdpos
  have hd2' : (p2.x - p1.x) ^ 2 + (p2.y - p1.y) ^ 2 = distance p1 p2 ^ 2 :=
    (distance_sq _ _).symm
  unfold circleCircleIntersection at hL
  rw [← distance_eq p1 p2] at hL
  dsimp only at hL
  set d := distance p1 p2 with hdd
  set a := (r1 * r1 - r2 * r2 + d * d) / (2 * d) with haa
  by_cases hg : d > r1 + r2 ∨ d < |r1 - r2| ∨ (d = 0 ∧ r1 ≠ r2)
  · rw [if_pos hg] at hL
    exact absurd hL (by simp)
  · rw [if_neg hg] at hL
    push_neg at hg
    obtain ⟨hg1, hg2, -⟩ := hg
    have hg1' : d ≤ r1 + r2 := hg1
    have hg2' : |r1 - r2| ≤ d := hg2
    obtain ⟨hg2a, hg2b⟩ := abs_le.mp hg2'
    have ha : a * (2 * d) = r1 * r1 - r2 * r2 + d * d := by
      rw [haa]
      exact div_mul_cancel₀ _ (by positivity)
    have key : 4 * (d * d) * (r1 * r1 - a * a) =
        (r1 + r2 - d) * (d + r1 - r2) * (d - r1 + r2) * (r1 + r2 + d) := by
      linear_combination (-(a * (2 * d) + (r1 * r1 - r2 * r2 + d * d))) * ha
    have hP : 0 ≤ (r1 + r2 - d) * (d + r1 - r2) * (d - r1 + r2) * (r1 + r2 + d) := by
      have f1 : 0 ≤ r1 + r2 - d := by linarith
      have f2 : 0 ≤ d + r1 - r2 := by linarith
      have f3 : 0 ≤ d - r1 + r2 := by linarith
      have f4 : 0 ≤ r1 + r2 + d := by linarith
      positivity
    have hanng : 0 ≤ r1 * r1 - a * a := by nlinarith [mul_pos hdpos hdpos]
    have hmax : max 0 (r1 * r1 - a * a) = r1 * r1 - a * a := max_eq_right hanng
    have hh2 : Real.sqrt (max 0 (r1 * r1 - a * a)) ^ 2 = r1 * r1 - a * a := by
      rw [hmax]
      exact Real.sq_sqrt hanng
    set hgt := Real.sqrt (max 0 (r1 * r1 - a * a)) with hhh
    have hh2n : (-hgt) ^ 2 = r1 * r1 - a * a := by
      rw [neg_sq]
      exact hh2
    split_ifs at hL with ht
    all_goals {
      simp only [Option.some.injEq] at hL
      subst hL
      intro q hq
      have hq' : q = (⟨p1.x + a * (p2.x - p1.x) / d + hgt * (p2.y - p1.y) / d,
            p1.y + a * (p2.y - p1.y) / d - hgt * (p2.x - p1.x) / d⟩ : Point) ∨
          q = (⟨p1.x + a * (p2.x - p1.x) / d - hgt * (p2.y - p1.y) / d,
            p1.y + a * (p2.y - p1.y) / d + hgt * (p2.x - p1.x) / d⟩ : Point) := by
        first
        | exact Or.inl (List.mem_singleton.mp hq)
        | simpa using hq
      rcases hq' with rfl | rfl
      · constructor
        · rw [distance_eq]
          apply sqrt_eq_of_sq hr1
          linear_combination circle_point_dist1 (p2.x - p1.x) (p2.y - p1.y) d a hgt r1 hdne hd2' hh2
        · rw [distance_eq]
          apply sqrt_eq_of_sq hr2
          linear_combination circle_point_dist2 (p2.x - p1.x) (p2.y - p1.y) d a hgt r1 r2 hdne hd2' hh2 ha
      · constructor
        · rw [distance_eq]
          apply sqrt_eq_of_sq hr1
          linear_combination circle_point_dist1 (p2.x - p1.x) (p2.y - p1.y) d a (-hgt) r1 hdne hd2' hh2n
        · rw [distance_eq]
          apply sqrt_eq_of_sq hr2
          linear_combination circle_point_dist2 (p2.x - p1.x) (p2.y - p1.y) d a (-hgt) r1 r2 hdne hd2' hh2n ha
    }

lemma distance_newBpoint (A : Point) (l θ : ℝ) (hl : 0 ≤ l) :
    distance A (newBpoint A l θ) = l := by
  rw [distance_eq]
  unfold newBpoint
  dsimp only
  apply sqrt_eq_of_sq hl
  linear_combination (-(l ^ 2)) * Real.sin_sq_add_cos_sq θ

/-- C2 amended: whenever the solver returns a state whose driven joint `B'`
does not coincide with the fixed pivot `D`, the returned state keeps `A` and
`D` and preserves all three moving link lengths exactly (over real
arithmetic). -/
theorem C2_rigidity_amended (st : DState) (m : ℝ) (s : MechState)
    (hs : (calculateAnimatedStateForAngle st m).1 = some s)
    (hBD : s.B ≠ st.pivots.D) :
    s.A = st.pivots.A ∧ s.D = st.pivots.D ∧
    distance s.A s.B = distance st.pivots.A st.pivots.B ∧
    distance s.B s.C = distance st.pivots.B st.pivots.C ∧
    distance s.C s.D = distance st.pivots.C st.pivots.D := by
  rcases calc_cases st m with h | ⟨θ₀, chosen, hθ, hdeg, ⟨L, hI, hmem⟩, heq⟩
  · rw [h] at hs
    simp at hs
  · rw [heq] at hs
    simp only [Option.some.injEq] at hs
    push_neg at hdeg
    obtain ⟨hab, hcd, hbc⟩ := hdeg
    have hab' : (0 : ℝ) ≤ distance st.pivots.A st.pivots.B := distance_nonneg _ _
    subst hs
    refine ⟨rfl, rfl, ?_, ?_, ?_⟩
    · exact distance_newBpoint _ _ _ hab'
    · exact (cci_member_distances _ _ _ _ L (by linarith)
        (by linarith) hBD hI chosen (mem_of_mem_pointFilter hmem)).1
    · exact (cci_member_distances _ _ _ _ L (by linarith)
        (by linarith) hBD hI chosen (mem_of_mem_pointFilter hmem)).2

/-- A reference state that drives the joint `B'` exactly onto the fixed pivot
`D` at offset `0`: `A = (0,0)`, `B = D = (5,0)`, `C = (0,5)`, input angle `0`,
hinge unlocked. -/
def degenState : DState where
  pivots := ⟨⟨0, 0⟩, ⟨5, 0⟩, ⟨0, 5⟩, ⟨5, 0⟩⟩
  initialInputAngle := some 0
  initialOrientations := some (0, 0)
  lastValidC := some ⟨0, 5⟩
  hingeUnlocked := true

lemma sqrt50_ge_one : (1 : ℝ) ≤ Real.sqrt 50 := by
  have h := Real.sqrt_le_sqrt (by norm_num : (1 : ℝ) ≤ 50)
  rwa [Real.sqrt_one] at h

lemma degen_cci :
    circleCircleIntersection ⟨5, 0⟩ (Real.sqrt 50) ⟨5, 0⟩ (Real.sqrt 50) =
      some [⟨5, 0⟩] := by
  have h50 : Real.sqrt 50 * Real.sqrt 50 = 50 := Real.mul_self_sqrt (by norm_num)
  have hd : Real.sqrt (((5 : ℝ) - 5) ^ 2 + ((0 : ℝ) - 0) ^ 2) = 0 := by
    rw [show ((5 : ℝ) - 5) ^ 2 + ((0 : ℝ) - 0) ^ 2 = 0 by norm_num]
    exact Real.sqrt_zero
  unfold circleCircleIntersection
  dsimp only
  rw [hd, if_neg, if_pos]
  · norm_num
  · right
    rw [sub_self, abs_zero]
  · push_neg
    refine ⟨by linarith [sqrt50_ge_one], ?_, fun _ => rfl⟩
    rw [sub_self, abs_zero]

/-- On `degenState` at offset `0` the driven joint lands on `D`; the circle
routine divides by `d = 0` and hands back a single bogus candidate equal to
`B' = D` itself (under total division; `NaN` in JavaScript), which the solver
then returns as `C'`. -/
lemma degen_calc :
    calculateAnimatedStateForAngle degenState 0 =
      (some ⟨⟨0, 0⟩, ⟨5, 0⟩, ⟨5, 0⟩, ⟨5, 0⟩⟩,
       { degenState with lastValidC := some ⟨5, 0⟩ }) := by
  have hAB : distance (⟨0, 0⟩ : Point) ⟨5, 0⟩ = 5 := by
    rw [distance_eq]; exact sqrt_eq_of_sq (by norm_num) (by norm_num)
  have hCD : distance (⟨0, 5⟩ : Point) ⟨5, 0⟩ = Real.sqrt 50 := by
    rw [distance_eq]; norm_num
  have hBC : distance (⟨5, 0⟩ : Point) ⟨0, 5⟩ = Real.sqrt 50 := by
    rw [distance_eq]; norm_num
  have hnB : newBpoint ⟨0, 0⟩ 5 (0 + 0) = (⟨5, 0⟩ : Point) := by
    unfold newBpoint
    rw [show (0 : ℝ) + 0 = 0 by norm_num, Real.cos_zero, Real.sin_zero]
    ext <;> · dsimp only; ring
  have hgate : gate ⟨⟨⟨0, 0⟩, ⟨5, 0⟩, ⟨0, 5⟩, ⟨5, 0⟩⟩, some 0, some (0, 0), some ⟨0, 5⟩, true⟩
      ⟨0, 0⟩ ⟨5, 0⟩ ⟨5, 0⟩ ⟨5, 0⟩ := by
    unfold gate
    simp
  unfold calculateAnimatedStateForAngle degenState
  dsimp only
  rw [hAB, hCD, hBC, hnB, if_neg (by push_neg; norm_num [sqrt50_ge_one]), degen_cci]
  dsimp only [pointFilter]
  rw [if_neg (show ¬([(⟨5, 0⟩ : Point)].length = 0) by simp)]
  rw [if_pos hgate]
  rw [if_neg (show ¬([(⟨5, 0⟩ : Point)].length = 0) by simp)]
  rw [selectFrom_singleton]

/-- C2 counterexample: on `degenState` at offset `0` the solver returns a
state, but the coupler length is not preserved — `B'` coincides with `D`, the
intersection formula divides by zero, and the returned `C'` equals `B'`, so
`|B'C'| = 0` while the reference coupler length is `√50`. -/
theorem C2_rigidity_counterexample :
    (calculateAnimatedStateForAngle degenState 0).1 =
      some ⟨⟨0, 0⟩, ⟨5, 0⟩, ⟨5, 0⟩, ⟨5, 0⟩⟩ ∧
    distance (⟨5, 0⟩ : Point) ⟨5, 0⟩ ≠
      distance degenState.pivots.B degenState.pivots.C := by
  constructor
  · rw [degen_calc]
  · rw [distance_self]
    intro h
    have hBC : distance degenState.pivots.B degenState.pivots.C > 0 := by
      apply distance_pos_of_ne
      intro he
      rw [Point.ext_iff] at he
      have : (5 : ℝ) = 0 := he.1
      norm_num at this
    linarith [h ▸ hBC]

/-- C2 witness: on the tangent reference state at offset `0` the solver
returns a state with `B' = (5, 0) ≠ D = (0, 0)`, and all link lengths of the
returned state equal the reference lengths. -/
theorem C2_rigidity_amended_witness :
    (⟨⟨0, 0⟩, ⟨5 * Real.cos 0, 5 * Real.sin 0⟩, tangentC 0, ⟨0, 0⟩⟩ : MechState).A =
      tangentState.pivots.A ∧
    (⟨⟨0, 0⟩, ⟨5 * Real.cos 0, 5 * Real.sin 0⟩, tangentC 0, ⟨0, 0⟩⟩ : MechState).D =
      tangentState.pivots.D ∧
    distance (⟨0, 0⟩ : Point) ⟨5 * Real.cos 0, 5 * Real.sin 0⟩ =
      distance tangentState.pivots.A tangentState.pivots.B ∧
    distance (⟨5 * Real.cos 0, 5 * Real.sin 0⟩ : Point) (tangentC 0) =
      distance tangentState.pivots.B tangentState.pivots.C ∧
    distance (tangentC 0) (⟨0, 0⟩ : Point) =
      distance tangentState.pivots.C tangentState.pivots.D := by
  have hc : (calculateAnimatedStateForAngle tangentState 0).1 =
      some ⟨⟨0, 0⟩, ⟨5 * Real.cos 0, 5 * Real.sin 0⟩, tangentC 0, ⟨0, 0⟩⟩ := by
    rw [show calculateAnimatedStateForAngle tangentState 0 =
        calculateAnimatedStateForAngle { tangentState with lastValidC := some ⟨-5, 0⟩ } 0
      from rfl, tangent_calc]
  have hBD : (⟨⟨0, 0⟩, ⟨5 * Real.cos 0, 5 * Real.sin 0⟩, tangentC 0, ⟨0, 0⟩⟩ : MechState).B ≠
      tangentState.pivots.D := by
    intro h
    rw [Point.ext_iff] at h
    have h1 : 5 * Real.cos 0 = 0 := h.1
    rw [Real.cos_zero] at h1
    norm_num at h1
  exact C2_rigidity_amended tangentState 0 _ hc hBD

/-! ### C1: identity of the solver at offset zero -/

lemma atan2_zero_of_nonneg (x : ℝ) (hx : 0 ≤ x) : atan2 0 x = 0 := by
  unfold atan2
  exact Complex.arg_ofReal_of_nonneg hx

/-- C1 (amended): on a reference state whose three link lengths are at or above
the degeneracy threshold, whose stored input angle is `atan2(B - A)`, whose
`lastValidC` is the reference `C`, whose reference pose passes the active
mode's gate, and whose driven joint `B` does not coincide with the fixed pivot
`D`, the solver at `angleOffset = 0` returns the reference pose `{A, B, C, D}`
and leaves the object state unchanged. -/
theorem C1_identity_amended (st : DState)
    (hlen1 : 1 ≤ distance st.pivots.A st.pivots.B)
    (hlen2 : 1 ≤ distance st.pivots.C st.pivots.D)
    (hlen3 : 1 ≤ distance st.pivots.B st.pivots.C)
    (hang : st.initialInputAngle =
      some (atan2 (st.pivots.B.y - st.pivots.A.y) (st.pivots.B.x - st.pivots.A.x)))
    (hlc : st.lastValidC = some st.pivots.C)
    (hgate : gate st st.pivots.A st.pivots.B st.pivots.D st.pivots.C)
    (hBD : st.pivots.B ≠ st.pivots.D) :
    calculateAnimatedStateForAngle st 0 = (some st.pivots, st) := by
  have hab : distance st.pivots.A st.pivots.B ≠ 0 := by
    intro h
    rw [h] at hlen1
    linarith
  have hnB := newBpoint_atan2 st.pivots.A st.pivots.B hab
  have hst : ((some st.pivots, st) : Option MechState × DState) =
      (some st.pivots, { st with lastValidC := some st.pivots.C }) := by
    rw [← hlc]
  rw [hst]
  unfold calculateAnimatedStateForAngle
  rw [hang]
  dsimp only
  rw [if_neg (by push_neg; exact ⟨hlen1, hlen2, hlen3⟩), hnB]
  rcases cci_reference st.pivots.B st.pivots.C st.pivots.D hBD with hI | ⟨other, hI⟩ |
    ⟨other, hone, hI⟩
  · rw [hI]
    dsimp only
    rw [if_neg (show ¬(([st.pivots.C] : List Point).length = 0) by simp)]
    dsimp only [pointFilter]
    rw [if_pos hgate]
    rw [if_neg (show ¬(([st.pivots.C] : List Point).length = 0) by simp)]
    rw [selectFrom_singleton]
  · rw [hI]
    dsimp only
    rw [if_neg (show ¬(([st.pivots.C, other] : List Point).length = 0) by simp)]
    dsimp only [pointFilter]
    rw [if_pos hgate]
    by_cases hg2 : gate st st.pivots.A st.pivots.B st.pivots.D other
    · rw [if_pos hg2]
      rw [if_neg (show ¬(([st.pivots.C, other] : List Point).length = 0) by simp)]
      have hsel : selectFrom st st.pivots.C [st.pivots.C, other] = some st.pivots.C := by
        unfold selectFrom
        rw [if_neg (show ¬(([st.pivots.C, other] : List Point).length = 1) by simp), hlc]
        exact chooseClosest_self (by simp) (by simp)
      rw [hsel]
    · rw [if_neg hg2]
      rw [if_neg (show ¬(([st.pivots.C] : List Point).length = 0) by simp)]
      rw [selectFrom_singleton]
  · rw [hI]
    dsimp only
    rw [if_neg (show ¬(([other, st.pivots.C] : List Point).length = 0) by simp)]
    dsimp only [pointFilter]
    rw [if_pos hgate]
    by_cases hg2 : gate st st.pivots.A st.pivots.B st.pivots.D other
    · rw [if_pos hg2]
      rw [if_neg (show ¬(([other, st.pivots.C] : List Point).length = 0) by simp)]
      have hsel : selectFrom st st.pivots.C [other, st.pivots.C] = some st.pivots.C := by
        unfold selectFrom
        rw [if_neg (show ¬(([other, st.pivots.C] : List Point).length = 1) by simp), hlc]
        exact chooseClosest_self (by simp) (by simp)
      rw [hsel]
    · rw [if_neg hg2]
      rw [if_neg (show ¬(([st.pivots.C] : List Point).length = 0) by simp)]
      rw [selectFrom_singleton]

/-- C1 counterexample: `degenState` satisfies every validity hypothesis the
claim demands — link lengths at or above the threshold, stored input angle
equal to `atan2(B - A)`, `lastValidC` equal to the reference `C`, and the
(unlocked) gate passed — yet the solver at offset `0` does not return the
reference pose: `B'` lands on `D`, the circle routine divides by `d = 0`, and
the returned `C'` is `B' = D` itself instead of the reference `C`. -/
theorem C1_identity_counterexample :
    1 ≤ distance degenState.pivots.A degenState.pivots.B ∧
    1 ≤ distance degenState.pivots.C degenState.pivots.D ∧
    1 ≤ distance degenState.pivots.B degenState.pivots.C ∧
    degenState.initialInputAngle =
      some (atan2 (degenState.pivots.B.y - degenState.pivots.A.y)
        (degenState.pivots.B.x - degenState.pivots.A.x)) ∧
    degenState.lastValidC = some degenState.pivots.C ∧
    gate degenState degenState.pivots.A degenState.pivots.B degenState.pivots.D
      degenState.pivots.C ∧
    (calculateAnimatedStateForAngle degenState 0).1 ≠ some degenState.pivots := by
  have hAB : distance degenState.pivots.A degenState.pivots.B = 5 := by
    show distance (⟨0, 0⟩ : Point) ⟨5, 0⟩ = 5
    rw [distance_eq]
    exact sqrt_eq_of_sq (by norm_num) (by norm_num)
  have hCD : distance degenState.pivots.C degenState.pivots.D = Real.sqrt 50 := by
    show distance (⟨0, 5⟩ : Point) ⟨5, 0⟩ = Real.sqrt 50
    rw [distance_eq]
    norm_num
  have hBC : distance degenState.pivots.B degenState.pivots.C = Real.sqrt 50 := by
    show distance (⟨5, 0⟩ : Point) ⟨0, 5⟩ = Real.sqrt 50
    rw [distance_eq]
    norm_num
  refine ⟨by rw [hAB]; norm_num, by rw [hCD]; exact sqrt50_ge_one,
    by rw [hBC]; exact sqrt50_ge_one, ?_, rfl, by unfold gate; simp [degenState], ?_⟩
  · show some (0 : ℝ) = some (atan2 ((0 : ℝ) - 0) ((5 : ℝ) - 0))
    rw [show ((0 : ℝ) - 0) = 0 by norm_num, show ((5 : ℝ) - 0) = 5 by norm_num,
      atan2_zero_of_nonneg 5 (by norm_num)]
  · rw [degen_calc]
    intro h
    simp only [Option.some.injEq] at h
    have hc := congrArg MechState.C h
    rw [Point.ext_iff] at hc
    norm_num [degenState] at hc

/-- C1 witness: the tangent reference state meets every hypothesis of the
amended identity property, and the solver at offset `0` returns its pose and
state unchanged. -/
theorem C1_identity_amended_witness :
    calculateAnimatedStateForAngle tangentState 0 = (some tangentState.pivots, tangentState) := by
  have hAB : distance (⟨0, 0⟩ : Point) ⟨5, 0⟩ = 5 := by
    rw [distance_eq]
    exact sqrt_eq_of_sq (by norm_num) (by norm_num)
  have hCD : distance (⟨-5, 0⟩ : Point) ⟨0, 0⟩ = 5 := by
    rw [distance_eq]
    exact sqrt_eq_of_sq (by norm_num) (by norm_num)
  have hBC : distance (⟨5, 0⟩ : Point) ⟨-5, 0⟩ = 10 := by
    rw [distance_eq]
    exact sqrt_eq_of_sq (by norm_num) (by norm_num)
  have hB0 : (⟨5 * Real.cos 0, 5 * Real.sin 0⟩ : Point) = ⟨5, 0⟩ := by
    rw [Real.cos_zero, Real.sin_zero]
    norm_num
  have hC0 : tangentC 0 = (⟨-5, 0⟩ : Point) := by
    unfold tangentC
    rw [Real.cos_zero, Real.sin_zero]
    norm_num
  have hgate : gate tangentState tangentState.pivots.A tangentState.pivots.B
      tangentState.pivots.D tangentState.pivots.C := by
    have hg := tangent_gate (some ⟨-5, 0⟩) 0
    rw [hB0, hC0] at hg
    exact hg
  refine C1_identity_amended tangentState ?_ ?_ ?_ ?_ rfl hgate ?_
  · show (1 : ℝ) ≤ distance ⟨0, 0⟩ ⟨5, 0⟩
    rw [hAB]
    norm_num
  · show (1 : ℝ) ≤ distance ⟨-5, 0⟩ ⟨0, 0⟩
    rw [hCD]
    norm_num
  · show (1 : ℝ) ≤ distance ⟨5, 0⟩ ⟨-5, 0⟩
    rw [hBC]
    norm_num
  · show some (0 : ℝ) = some (atan2 ((0 : ℝ) - 0) ((5 : ℝ) - 0))
    rw [show ((0 : ℝ) - 0) = 0 by norm_num, show ((5 : ℝ) - 0) = 5 by norm_num,
      atan2_zero_of_nonneg 5 (by norm_num)]
  · intro h
    have hx := congrArg Point.x h
    norm_num [tangentState] at hx

/-! ### C7: effect of the range finder on the stored object state -/

lemma calc_preserves (st : DState) (m : ℝ) :
    ((calculateAnimatedStateForAngle st m).2).pivots = st.pivots ∧
    ((calculateAnimatedStateForAngle st m).2).initialInputAngle = st.initialInputAngle ∧
    ((calculateAnimatedStateForAngle st m).2).initialOrientations = st.initialOrientations ∧
    ((calculateAnimatedStateForAngle st m).2).hingeUnlocked = st.hingeUnlocked := by
  rcases calc_cases st m with h | ⟨θ₀, chosen, _, _, _, h⟩ <;> rw [h] <;>
    exact ⟨rfl, rfl, rfl, rfl⟩

lemma findLimitLoop_preserves (fuel : ℕ) :
    ∀ (st : DState) (dir low high best : ℝ),
    ((findLimitLoop fuel st dir low high best).2).pivots = st.pivots ∧
    ((findLimitLoop fuel st dir low high best).2).initialInputAngle = st.initialInputAngle ∧
    ((findLimitLoop fuel st dir low high best).2).initialOrientations =
      st.initialOrientations ∧
    ((findLimitLoop fuel st dir low high best).2).hingeUnlocked = st.hingeUnlocked := by
  induction fuel with
  | zero =>
    intro st dir low high best
    exact ⟨rfl, rfl, rfl, rfl⟩
  | succ n ih =>
    intro st dir low high best
    unfold findLimitLoop
    dsimp only
    by_cases h1 : |low + (high - low) / 2 - best| < 0.0001
    · rw [if_pos h1]
      exact ⟨rfl, rfl, rfl, rfl⟩
    · rw [if_neg h1]
      have hc := calc_preserves st (low + (high - low) / 2)
      rcases hp : (calculateAnimatedStateForAngle st (low + (high - low) / 2)).1 with _ | s <;>
        dsimp only <;> split_ifs <;>
        first
          | exact ⟨hc.1, hc.2.1, hc.2.2.1, hc.2.2.2⟩
          | exact ⟨((ih _ _ _ _ _).1).trans hc.1, ((ih _ _ _ _ _).2.1).trans hc.2.1,
              ((ih _ _ _ _ _).2.2.1).trans hc.2.2.1, ((ih _ _ _ _ _).2.2.2).trans hc.2.2.2⟩

lemma findLimit_preserves (st : DState) (dir sa : ℝ) :
    ((findLimit st dir sa).2).pivots = st.pivots ∧
    ((findLimit st dir sa).2).initialInputAngle = st.initialInputAngle ∧
    ((findLimit st dir sa).2).initialOrientations = st.initialOrientations ∧
    ((findLimit st dir sa).2).hingeUnlocked = st.hingeUnlocked := by
  unfold findLimit
  dsimp only
  exact findLimitLoop_preserves 100 st dir sa _ sa

/-- C7 (amended): the range finder's probes are invocations of the solver, so
after `calculateAngleLimits` returns, the pivots, the stored reference input
angle, the stored reference orientations and the lock mode are unchanged; only
`lastValidC` may differ — there is no snapshot/restore of `lastValidC` around
the exploratory probes, and a successful probe overwrites it. -/
theorem C7_range_finder_frame_amended (st : DState) :
    ((calculateAngleLimits st).2).pivots = st.pivots ∧
    ((calculateAngleLimits st).2).initialInputAngle = st.initialInputAngle ∧
    ((calculateAngleLimits st).2).initialOrientations = st.initialOrientations ∧
    ((calculateAngleLimits st).2).hingeUnlocked = st.hingeUnlocked := by
  unfold calculateAngleLimits
  dsimp only
  exact ⟨(findLimit_preserves _ _ _).1.trans (findLimit_preserves _ _ _).1,
    (findLimit_preserves _ _ _).2.1.trans (findLimit_preserves _ _ _).2.1,
    (findLimit_preserves _ _ _).2.2.1.trans (findLimit_preserves _ _ _).2.2.1,
    (findLimit_preserves _ _ _).2.2.2.trans (findLimit_preserves _ _ _).2.2.2⟩

/-- Bracket low end of the positive binary search on `tangentState` after `j`
successful probes: `2π (1 - (1/2)^j)`. -/
noncomputable def lowP (j : ℕ) : ℝ := 2 * π * (1 - (1 / 2) ^ j)

/-- Bracket high end of the negative binary search on `tangentState` after `j`
steps: `-2π (1/2)^j`. -/
noncomputable def negH (j : ℕ) : ℝ := -(2 * π * (1 / 2) ^ j)

lemma lowP_mid (j : ℕ) : lowP j + (2 * π - lowP j) / 2 = lowP (j + 1) := by
  unfold lowP
  rw [pow_succ]
  ring

lemma lowP_diff (j : ℕ) : lowP (j + 1) - lowP j = π * (1 / 2) ^ j := by
  unfold lowP
  rw [pow_succ]
  ring

lemma lowP_high (j : ℕ) : 2 * π - lowP (j + 1) = π * (1 / 2) ^ j := by
  unfold lowP
  rw [pow_succ]
  ring

lemma negH_mid (j : ℕ) : 0 + (negH j - 0) / 2 = negH (j + 1) := by
  unfold negH
  rw [pow_succ]
  ring

lemma negH_diff (j : ℕ) : negH (j + 1) - negH j = π * (1 / 2) ^ j := by
  unfold negH
  rw [pow_succ]
  ring

lemma negH_height (j : ℕ) : |negH (j + 1) - 0| = π * (1 / 2) ^ j := by
  rw [sub_zero]
  unfold negH
  rw [abs_neg, abs_of_nonneg (by positivity), pow_succ]
  ring

lemma pi_half_pow_ge (j : ℕ) (hj : j ≤ 14) : (0.0001 : ℝ) ≤ π * (1 / 2) ^ j := by
  have h14 : ((1 : ℝ) / 2) ^ 14 ≤ (1 / 2) ^ j :=
    pow_le_pow_of_le_one (by norm_num) (by norm_num) hj
  have hpi : (3.141592 : ℝ) < π := Real.pi_gt_d6
  calc (0.0001 : ℝ) ≤ 3.141592 * (1 / 2) ^ 14 := by norm_num
    _ ≤ π * (1 / 2) ^ j := mul_le_mul (le_of_lt hpi) h14 (by positivity) (by positivity)

lemma pi_half_pow_lt : π * ((1 : ℝ) / 2) ^ 15 < 0.0001 := by
  have hpi : π < 3.15 := Real.pi_lt_d2
  have hp : ((1 : ℝ) / 2) ^ 15 = 1 / 32768 := by norm_num
  rw [hp]
  linarith

lemma posLoop_stop (n : ℕ) (lc : Option Point) :
    findLimitLoop (n + 1) { tangentState with lastValidC := lc } 1 (lowP 15) (2 * π)
      (lowP 15) = (lowP 15, { tangentState with lastValidC := lc }) := by
  have hstop : |lowP 15 + (2 * π - lowP 15) / 2 - lowP 15| < 0.0001 := by
    rw [show lowP 15 + (2 * π - lowP 15) / 2 - lowP 15 = π * (1 / 2) ^ 15 from by
      unfold lowP; ring]
    rw [abs_of_nonneg (by positivity)]
    exact pi_half_pow_lt
  unfold findLimitLoop
  dsimp only
  rw [if_pos hstop]

lemma negLoop_stop (n : ℕ) (lc : Option Point) :
    findLimitLoop (n + 1) { tangentState with lastValidC := lc } (-1) 0 (negH 15)
      (negH 15) = (negH 15, { tangentState with lastValidC := lc }) := by
  have hstop : |0 + (negH 15 - 0) / 2 - negH 15| < 0.0001 := by
    rw [show (0 : ℝ) + (negH 15 - 0) / 2 - negH 15 = π * (1 / 2) ^ 15 from by
      unfold negH; ring]
    rw [abs_of_nonneg (by positivity)]
    exact pi_half_pow_lt
  unfold findLimitLoop
  dsimp only
  rw [if_pos hstop]

lemma posLoop : ∀ (i : ℕ), 1 ≤ i → i ≤ 15 → ∀ (n : ℕ), i ≤ n → ∀ (lc : Option Point),
    findLimitLoop (n + 1) { tangentState with lastValidC := lc } 1 (lowP (15 - i))
      (2 * π) (lowP (15 - i)) =
    (lowP 15, { tangentState with lastValidC := some (tangentC (lowP 15)) }) := by
  intro i
  induction i with
  | zero => intro h; omega
  | succ k ih =>
    intro _ hk15 n hn lc
    obtain ⟨m, rfl⟩ : ∃ m, n = m + 1 := ⟨n - 1, by omega⟩
    have hc1 : ¬(|lowP (15 - k) - lowP (14 - k)| < 0.0001) := by
      rw [show (15 : ℕ) - k = (14 - k) + 1 from by omega, lowP_diff,
        abs_of_nonneg (by positivity)]
      exact not_lt.mpr (pi_half_pow_ge _ (by omega))
    have hc2 : ¬(|2 * π - lowP (15 - k)| < 0.0001) := by
      rw [show (15 : ℕ) - k = (14 - k) + 1 from by omega, lowP_high]
      rw [abs_of_nonneg (by positivity)]
      exact not_lt.mpr (pi_half_pow_ge _ (by omega))
    rw [show (15 : ℕ) - (k + 1) = 14 - k from by omega]
    unfold findLimitLoop
    dsimp only
    rw [lowP_mid (14 - k), show (14 : ℕ) - k + 1 = 15 - k from by omega]
    rw [if_neg hc1, tangent_calc lc (lowP (15 - k))]
    dsimp only
    simp only [if_pos (show (1 : ℝ) > 0 from by norm_num)]
    rw [if_neg hc2]
    rcases Nat.eq_zero_or_pos k with rfl | hk1
    · simp only [Nat.sub_zero]
      exact posLoop_stop m _
    · exact ih hk1 (by omega) m (by omega) _

lemma negLoop : ∀ (i : ℕ), 1 ≤ i → i ≤ 15 → ∀ (n : ℕ), i ≤ n → ∀ (lc : Option Point),
    findLimitLoop (n + 1) { tangentState with lastValidC := lc } (-1) 0
      (negH (15 - i)) (negH (15 - i)) =
    (negH 15, { tangentState with lastValidC := some (tangentC (negH 15)) }) := by
  intro i
  induction i with
  | zero => intro h; omega
  | succ k ih =>
    intro _ hk15 n hn lc
    obtain ⟨m, rfl⟩ : ∃ m, n = m + 1 := ⟨n - 1, by omega⟩
    have hc1 : ¬(|negH (15 - k) - negH (14 - k)| < 0.0001) := by
      rw [show (15 : ℕ) - k = (14 - k) + 1 from by omega, negH_diff,
        abs_of_nonneg (by positivity)]
      exact not_lt.mpr (pi_half_pow_ge _ (by omega))
    have hc2 : ¬(|negH (15 - k) - 0| < 0.0001) := by
      rw [show (15 : ℕ) - k = (14 - k) + 1 from by omega, negH_height]
      exact not_lt.mpr (pi_half_pow_ge _ (by omega))
    rw [show (15 : ℕ) - (k + 1) = 14 - k from by omega]
    unfold findLimitLoop
    dsimp only
    rw [negH_mid (14 - k), show (14 : ℕ) - k + 1 = 15 - k from by omega]
    rw [if_neg hc1, tangent_calc lc (negH (15 - k))]
    dsimp only
    simp only [if_neg (show ¬((-1 : ℝ) > 0) from by norm_num)]
    rw [if_neg hc2]
    rcases Nat.eq_zero_or_pos k with rfl | hk1
    · simp only [Nat.sub_zero]
      exact negLoop_stop m _
    · exact ih hk1 (by omega) m (by omega) _

lemma findLimit_high_locked (st : DState) (hfl : st.hingeUnlocked = false) (d sa : ℝ) :
    (if st.hingeUnlocked then sa + π * 4 * d else sa + π * 2 * d) = sa + π * 2 * d := by
  rw [hfl]
  simp

/-- The positive directional search on `tangentState` converges to
`2π (1 - (1/2)^15)` and leaves `lastValidC` holding the joint of its last
successful probe. -/
lemma posFindLimit (lc : Option Point) :
    findLimit { tangentState with lastValidC := lc } 1 0 =
      (lowP 15, { tangentState with lastValidC := some (tangentC (lowP 15)) }) := by
  unfold findLimit
  dsimp only
  rw [findLimit_high_locked { tangentState with lastValidC := lc } rfl 1 0]
  rw [show (0 : ℝ) + π * 2 * 1 = 2 * π from by ring]
  rw [show (0 : ℝ) = lowP 0 from by unfold lowP; norm_num]
  rw [show (100 : ℕ) = 99 + 1 from rfl]
  exact posLoop 15 (by omega) (by omega) 99 (by omega) lc

/-- The negative directional search on `tangentState` converges to
`-2π (1/2)^15` and leaves `lastValidC` holding the joint of its last
successful probe. -/
lemma negFindLimit (lc : Option Point) :
    findLimit { tangentState with lastValidC := lc } (-1) 0 =
      (negH 15, { tangentState with lastValidC := some (tangentC (negH 15)) }) := by
  have hc1 : ¬(|negH 1 - 0| < 0.0001) := by
    rw [show negH 1 = negH (0 + 1) from rfl, negH_height]
    exact not_lt.mpr (pi_half_pow_ge 0 (by omega))
  unfold findLimit
  dsimp only
  rw [findLimit_high_locked { tangentState with lastValidC := lc } rfl (-1) 0]
  rw [show (0 : ℝ) + π * 2 * (-1) = negH 0 from by unfold negH; ring]
  rw [show (100 : ℕ) = 99 + 1 from rfl]
  unfold findLimitLoop
  dsimp only
  rw [negH_mid 0, show (0 : ℕ) + 1 = 1 from rfl]
  rw [if_neg hc1, tangent_calc lc (negH 1)]
  dsimp only
  simp only [if_neg (show ¬((-1 : ℝ) > 0) from by norm_num)]
  rw [if_neg hc1]
  rw [show (99 : ℕ) = 98 + 1 from rfl]
  exact negLoop 14 (by omega) (by omega) 98 (by omega) _

/-- C7 counterexample: on the tangent reference state — solvable at every
offset — `calculateAngleLimits` exits with `lastValidC` holding the joint of
the last successful exploratory probe, `(-5 cos θ, -5 sin θ)` with
`θ = -2π (1/2)^15`, not the `(-5, 0)` stored before the call: the probes'
mutation of `lastValidC` is never rolled back. -/
theorem C7_range_finder_counterexample :
    ((calculateAngleLimits tangentState).2).lastValidC ≠ tangentState.lastValidC := by
  have hpos : findLimit tangentState 1 0 =
      (lowP 15, { tangentState with lastValidC := some (tangentC (lowP 15)) }) :=
    posFindLimit (some ⟨-5, 0⟩)
  have hneg := negFindLimit (some (tangentC (lowP 15)))
  unfold calculateAngleLimits
  dsimp only
  rw [hpos]
  dsimp only
  rw [hneg]
  intro h
  have h2 : some (tangentC (negH 15)) = some ((⟨-5, 0⟩ : Point)) := h
  simp only [Option.some.injEq] at h2
  have hy := congrArg Point.y h2
  have hy' : -5 * Real.sin (negH 15) = 0 := hy
  have hsin : Real.sin (negH 15) < 0 := by
    apply Real.sin_neg_of_neg_of_neg_pi_lt
    · unfold negH
      rw [neg_lt_zero]
      positivity
    · unfold negH
      have hq : ((1 : ℝ) / 2) ^ 15 = 1 / 32768 := by norm_num
      rw [hq]
      nlinarith [Real.pi_pos]
  linarith

end FourBar
